import Mathlib

/-!
Verification of c_adventure: the room generator (`depreyj.buildrooms.c`) and the game
(`depreyj.adventure.c`), as a shallow embedding of the two C programs.

Conventions of the embedding.

* `rand()` is a list of natural numbers consumed from the left; a function
  that needs a draw from an exhausted list returns `none`.  The C loop
  `do { random = getRandomInt(0, 6); } while (random == i);` has no bound, so
  the run of the C code on an infinite stream of draws finishes exactly when
  some finite prefix of the stream makes the embedded function return `some`.
* `struct Room` declares `int connections[MAX_CONN]` with `MAX_CONN = 6`, and
  every loop of both programs indexes it with `j < NUM_ROOMS = 7`.  The
  embedding keeps `NUM_ROOMS` slots per room (`sizeof (struct Room)` is 40 on
  LP64, the seventh `int` lies in the tail padding of the struct).
* `gameOn` reads `currRoom->connections[index]` with `index = -1` until a room
  name has been entered; the `int` before `connections` in `struct Room` is the
  member `type`, and the embedding reads that.
* `gameOn` stores moves in `int path[14]`; a store at `path[14]` or beyond has
  no defined effect and the embedded step returns `none` there.
* C strings are Lean strings.  Uninitialised storage (`roomList` and `visited`
  of `main` in adventure.c, the three field buffers) is a parameter of
  `readRooms`.
* In adventure.c the member `name` of `struct Room` is a `char *` that nothing
  assigns: `roomList` is an uninitialised local of `main`.  The statement
  `strcpy(roomList[i].name, visited[i])` of `readRooms` stores through that
  pointer; where the characters go is not defined and the member itself is not
  changed.  The embedded `readRooms` leaves `name` as it is in the room list it
  receives: the rooms it loads carry a type and connections, and the names of
  the loaded rooms are the entries of `visited`, as in `gameOn`.
* The buffers `field1`, `field2`, `field3` are `char[10]`; `%s` stores a word
  of ten characters or more (`CONNECTION`, `START_ROOM`) past the end of its
  buffer.  The embedding gives each field the whole word and does not model
  what the excess bytes overwrite.
-/

namespace CAdventure

/-! ## Constants and data (both files) -/

def NUM_ROOMS : Nat := 7
def NAME_POOL : Nat := 10
def NAME_LENGTH : Nat := 10
def MIN_CONN : Nat := 3
def MAX_CONN : Nat := 6

/-- The C declaration `enum roomType {START_ROOM, MID_ROOM, END_ROOM};`. -/
inductive roomType where
  | START_ROOM
  | MID_ROOM
  | END_ROOM
  deriving DecidableEq, Repr, Inhabited

/-- The integer value of an enumerator (`START_ROOM = 0`, `MID_ROOM = 1`, `END_ROOM = 2`). -/
def roomType.toInt : roomType → Int
  | .START_ROOM => 0
  | .MID_ROOM => 1
  | .END_ROOM => 2

/-- The table `const char *rooms[NAME_POOL]` of buildrooms.c. -/
def rooms : List String :=
  ["desert", "shop", "castle", "field", "forest",
   "village", "mountain", "temple", "lake", "valley"]

/-- The C declaration `struct Room { name; type; connections[] }`. -/
structure Room where
  name : String
  type : roomType
  connections : List Int
  deriving DecidableEq, Repr, Inhabited

/-- Read of `roomList[i].connections[j]` for `0 ≤ j`. -/
def connAt (roomList : List Room) (i j : Nat) : Int :=
  ((roomList.getD i default).connections).getD j 0

/-- Read of `roomList[i].type`. -/
def typeAt (roomList : List Room) (i : Nat) : roomType :=
  (roomList.getD i default).type

/-- Read of `roomList[i].name`. -/
def nameAt (roomList : List Room) (i : Nat) : String :=
  (roomList.getD i default).name

/-- Assignment `roomList[i].connections[j] = v`. -/
def setConn (roomList : List Room) (i j : Nat) (v : Int) : List Room :=
  roomList.set i
    { roomList.getD i default with
      connections := (roomList.getD i default).connections.set j v }

/-- Assignment `roomList[i].type = t`. -/
def setType (roomList : List Room) (i : Nat) (t : roomType) : List Room :=
  roomList.set i { roomList.getD i default with type := t }

/-! ## buildrooms.c -/

/-- One iteration of the shuffle loop of `getRandomList`, `r` being the value of `rand()`:
`j = i + rand() % (NAME_POOL - i); temp = list[i]; list[i] = list[j]; list[j] = temp;`. -/
def shuffleStep (list : List Nat) (i r : Nat) : List Nat :=
  let j := i + r % (NAME_POOL - i)
  let temp := list.getD i 0
  let list1 := list.set i (list.getD j 0)
  list1.set j temp

/-- The loop `for (i = 0; i < size; i++)` of `getRandomList`, with `n = size - i` iterations
left to run; `randoms` collects `randoms[0..i-1]`. -/
def getRandomListLoop : Nat → Nat → List Nat → List Nat → List Nat →
    Option (List Nat × List Nat)
  | 0, _, _, randoms, draws => some (randoms, draws)
  | _ + 1, _, _, _, [] => none
  | n + 1, i, list, randoms, r :: draws =>
    let list2 := shuffleStep list i r
    getRandomListLoop n (i + 1) list2 (randoms ++ [list2.getD i 0]) draws

/-- The function `getRandomList(size, randoms)`: returns `randoms[0..size-1]` and the unused
draws.  The first loop fills `list[i] = i` for `i < NAME_POOL`.  `main` calls it with
`size = NAME_POOL`, and `generateRooms` reads `randoms[0..NUM_ROOMS-1]`. -/
def getRandomList (size : Nat) (draws : List Nat) : Option (List Nat × List Nat) :=
  getRandomListLoop size 0 (List.range NAME_POOL) [] draws

/-- The function `getRandomInt(m, n)`, `r` being the value of `rand()`:
`rand() % (n - m + 1) + m`. -/
def getRandomInt (m n : Nat) (r : Nat) : Nat :=
  r % (n - m + 1) + m

/-- First loop of `generateRooms`: room `i` gets the name `rooms[randomList[i]]`, type
`MID_ROOM` and `connections[j] = 0` for every `j < NUM_ROOMS`. -/
def initRooms (randomList : List Nat) : List Room :=
  (List.range NUM_ROOMS).map fun i =>
    { name := rooms.getD (randomList.getD i 0) "",
      type := roomType.MID_ROOM,
      connections := List.replicate NUM_ROOMS 0 }

/-- Lines 142-144 of buildrooms.c: `roomList[0].type = START_ROOM;
random = getRandomInt(1, 6); roomList[random].type = END_ROOM;`. -/
def assignRoles (roomList : List Room) (r : Nat) : List Room :=
  let roomList1 := setType roomList 0 roomType.START_ROOM
  let random := getRandomInt 1 6 r
  setType roomList1 random roomType.END_ROOM

/-- The loop `do { random = getRandomInt(0, 6); } while (random == i);`: returns the first
draw whose value differs from `i`, and the unused draws. -/
def drawOther (i : Nat) : List Nat → Option (Nat × List Nat)
  | [] => none
  | r :: draws =>
    let random := getRandomInt 0 6 r
    if random = i then drawOther i draws else some (random, draws)

/-- The loop `while (connects < MIN_CONN)` of room `i`, with `n = MIN_CONN - connects`
iterations left to run; returns the final value of `connects`, the room list and the unused
draws. -/
def connectLoop (i : Nat) : Nat → Nat → List Room → List Nat →
    Option (Nat × List Room × List Nat)
  | 0, connects, roomList, draws => some (connects, roomList, draws)
  | n + 1, connects, roomList, draws =>
    match drawOther i draws with
    | none => none
    | some (random, rest) =>
      let roomList1 := setConn roomList i random 1
      let roomList2 := setConn roomList1 random i 1
      connectLoop i n (connects + 1) roomList2 rest

/-- The loop `for (i = 0; i < NUM_ROOMS; i++)` that creates the connections, with
`n = NUM_ROOMS - i` iterations left to run. -/
def connectRooms : Nat → Nat → List Room → List Nat → Option (List Room × List Nat)
  | 0, _, roomList, draws => some (roomList, draws)
  | n + 1, i, roomList, draws =>
    match connectLoop i MIN_CONN 0 roomList draws with
    | none => none
    | some (_, roomList1, rest) => connectRooms n (i + 1) roomList1 rest

/-- The in-memory part of `generateRooms` (lines 129-164): the room list after the
initialisation, the role assignment and the connection loops. -/
def generateRooms (randomList : List Nat) (draws : List Nat) : Option (List Room) :=
  match draws with
  | [] => none
  | r :: rest =>
    match connectRooms NUM_ROOMS 0 (assignRoles (initRooms randomList) r) rest with
    | none => none
    | some (roomList, _) => some roomList

/-- The type names printed after `ROOM TYPE: ` (lines 189-195): `START_ROOM` when the type is
`START_ROOM`, else `MID_ROOM` when it is `MID_ROOM`, else `END_ROOM`. -/
def typeString (t : roomType) : String :=
  if t = roomType.START_ROOM then "START_ROOM"
  else if t = roomType.MID_ROOM then "MID_ROOM"
  else "END_ROOM"

/-- The loop `for (j = 0; j < NUM_ROOMS; j++)` that writes the connections of room `i`
(lines 179-185), with `n = NUM_ROOMS - j` iterations left to run; `out` is the text written
to the file so far.  Returns the final `counter` and the text. -/
def writeConnections (roomList : List Room) (i : Nat) : Nat → Nat → Nat → String → Nat × String
  | 0, _, counter, out => (counter, out)
  | n + 1, j, counter, out =>
    if connAt roomList i j = 1 then
      writeConnections roomList i n (j + 1) (counter + 1)
        (out ++ "CONNECTION " ++ toString counter ++ ": " ++ nameAt roomList j ++ "\n")
    else
      writeConnections roomList i n (j + 1) counter out

/-- The text written to the file of room `i` (lines 176-197). -/
def writeRoom (roomList : List Room) (i : Nat) : String :=
  let out := "ROOM NAME: " ++ nameAt roomList i ++ "\n"
  let out1 := (writeConnections roomList i NUM_ROOMS 0 1 out).2
  let out2 := out1 ++ "ROOM TYPE: "
  let out3 := out2 ++ typeString (typeAt roomList i)
  out3 ++ "\n"

/-- A directory: its files as pairs (file name, content). -/
abbrev Directory := List (String × String)

/-- The effect of `fopen(name, "w")`, the writes and `fclose`: the file `name` is created, or
replaced when the directory already has a file of that name. -/
def writeFile (dir : Directory) (name content : String) : Directory :=
  if dir.any (fun e => e.1 == name) then
    dir.map (fun e => if e.1 = name then (name, content) else e)
  else dir ++ [(name, content)]

/-- The loop `for (i = 0; i < NUM_ROOMS; i++)` that writes one file per room (lines 168-199),
with `n = NUM_ROOMS - i` iterations left to run. -/
def writeRooms (roomList : List Room) : Nat → Nat → Directory → Directory
  | 0, _, dir => dir
  | n + 1, i, dir =>
    writeRooms roomList n (i + 1) (writeFile dir (nameAt roomList i) (writeRoom roomList i))

/-- The whole of `generateRooms`: the room list and the room directory it leaves (the
directory is created empty by `createDir`). -/
def generateRoomFiles (randomList : List Nat) (draws : List Nat) :
    Option (List Room × Directory) :=
  match generateRooms randomList draws with
  | none => none
  | some roomList => some (roomList, writeRooms roomList NUM_ROOMS 0 [])

/-! ## adventure.c -/

def DIR_PREFIX : String := "depreyj.rooms"

/-- Whether `needle` occurs at the start of `hay`. -/
def startsWith : List Char → List Char → Bool
  | _, [] => true
  | [], _ :: _ => false
  | h :: hay, c :: needle => h = c && startsWith hay needle

/-- The test `strstr(hay, needle) != NULL`: `needle` occurs somewhere in `hay`. -/
def strstr : List Char → List Char → Bool
  | [], needle => startsWith [] needle
  | h :: hay, needle => startsWith (h :: hay) needle || strstr hay needle

/-- A directory entry as `getLatestRoomDir` sees it: `dir->d_name` and the `st_mtime` that
`stat` reports for it. -/
structure DirEntry where
  d_name : String
  st_mtime : Int
  deriving DecidableEq, Repr, Inhabited

/-- The conversion `(int) sb.st_mtime` of a `time_t` to a 32-bit `int`. -/
def castInt (t : Int) : Int :=
  (t + 2 ^ 31) % 2 ^ 32 - 2 ^ 31

/-- The loop `while ((dir = readdir(d)) != NULL)` of `getLatestRoomDir` over the entries in
enumeration order, carrying `latest` and the content of `roomDir`. -/
def getLatestLoop : List DirEntry → Int → String → Int × String
  | [], latest, roomDir => (latest, roomDir)
  | dir :: rest, latest, roomDir =>
    if strstr dir.d_name.data DIR_PREFIX.data then
      if castInt dir.st_mtime > latest then
        getLatestLoop rest (castInt dir.st_mtime) dir.d_name
      else getLatestLoop rest latest roomDir
    else getLatestLoop rest latest roomDir

/-- The function `getLatestRoomDir`: `latest = 0`, `roomDir` cleared, then the loop; the
result is the content of `roomDir`. -/
def getLatestRoomDir (entries : List DirEntry) : String :=
  (getLatestLoop entries 0 "").2

/-- The C library predicate `isspace` (in the C locale), which delimits the `%s` fields of
`fscanf`. -/
def isspace (c : Char) : Bool :=
  c = ' ' || c = '\t' || c = '\n' || c = '\r' || c = Char.ofNat 11 || c = Char.ofNat 12

/-- The whitespace-delimited words of a text, in order: what successive `%s` conversions
read.  `cur` holds the characters of the word being read. -/
def scanWords : List Char → List Char → List String
  | [], cur => if cur = [] then [] else [String.mk cur]
  | c :: cs, cur =>
    if isspace c then
      if cur = [] then scanWords cs [] else String.mk cur :: scanWords cs []
    else scanWords cs (cur ++ [c])

/-- The test `strncmp(a, b, n) == 0`: the first `n` characters agree (or both strings end,
equal, before that). -/
def strncmpEq (a b : String) (n : Nat) : Bool :=
  a.data.take n = b.data.take n

/-- The three buffers `field1`, `field2`, `field3` of `readRooms`. -/
structure Fields where
  field1 : String
  field2 : String
  field3 : String
  deriving DecidableEq, Repr, Inhabited

/-- The loop `for (j = 0; j < NUM_ROOMS; j++)` of the CONNECTION branch (lines 173-177):
`connections[j] = 1` for every `j` with `strcmp(field3, visited[j]) == 0`; `n = NUM_ROOMS - j`
iterations are left to run. -/
def markConnections (visited : List String) (field3 : String) :
    Nat → Nat → List Int → List Int
  | 0, _, connections => connections
  | n + 1, j, connections =>
    if field3 = visited.getD j "" then
      markConnections visited field3 n (j + 1) (connections.set j 1)
    else markConnections visited field3 n (j + 1) connections

/-- The body of the `fscanf` loop (lines 161-178) for the room being read. -/
def recordLine (visited : List String) (f : Fields) (room : Room) : Room :=
  if strncmpEq f.field2 "NAME" 4 then room
  else if strncmpEq f.field2 "TYPE" 4 then
    if strncmpEq f.field3 "START_ROOM" 10 then { room with type := roomType.START_ROOM }
    else if strncmpEq f.field3 "MID_ROOM" 8 then { room with type := roomType.MID_ROOM }
    else if strncmpEq f.field3 "END_ROOM" 8 then { room with type := roomType.END_ROOM }
    else room
  else if strncmpEq f.field1 "CONNECTION" 10 then
    { room with
      connections := markConnections visited f.field3 NUM_ROOMS 0 room.connections }
  else room

/-- The loop `while (fscanf(fp, "%s %s %s", field1, field2, field3) != EOF)` over the words
left in the file.  A call that finds one or two words stores them, leaves the other buffers
as they were and does not return `EOF`; the call after it does. -/
def scanLoop (visited : List String) : List String → Fields → Room → Fields × Room
  | a :: b :: c :: rest, _, room =>
    let f : Fields := { field1 := a, field2 := b, field3 := c }
    scanLoop visited rest f (recordLine visited f room)
  | [a, b], f, room =>
    let f1 : Fields := { f with field1 := a, field2 := b }
    (f1, recordLine visited f1 room)
  | [a], f, room =>
    let f1 : Fields := { f with field1 := a }
    (f1, recordLine visited f1 room)
  | [], f, room => (f, room)

/-- The loop `for (i = 0; i < roomCount; i++)` of `readRooms` over the files in enumeration
order (lines 141-181): the connections of `roomList[i]` are cleared and the file named
`visited[i]` is scanned.  Line 153, `strcpy(roomList[i].name, visited[i])`, stores through
the pointer `roomList[i].name`, which is never initialised: the member `name` is left as it
is in `roomList`, and no name is attached to the room. -/
def readFiles (visited : List String) : List (String × String) → Nat → Fields → List Room →
    List Room
  | [], _, _, roomList => roomList
  | file :: rest, i, f, roomList =>
    let room0 : Room :=
      { roomList.getD i default with
        connections := List.replicate NUM_ROOMS 0 }
    let r := scanLoop visited (scanWords file.2.data []) f room0
    readFiles visited rest (i + 1) r.1 (roomList.set i r.2)

/-- The function `readRooms` on the files of the room directory in enumeration order (after
the two skipped entries).  `roomList0`, `visited0` and `fields0` are the contents of the
arrays of `main` and of the field buffers before the call; both arrays have `NUM_ROOMS`
slots, and a directory with more files than that is outside the arrays (`none`).  Returns the
room list and `visited`. -/
def readRooms (roomList0 : List Room) (visited0 : List String) (fields0 : Fields)
    (files : Directory) : Option (List Room × List String) :=
  if files.length ≤ NUM_ROOMS then
    let visited := files.map (fun e => e.1) ++ visited0.drop files.length
    some (readFiles visited files 0 fields0 roomList0, visited)
  else none

/-- The local state of `gameOn` across prompts: `currRoom` (as an index into `roomList`),
`index`, and `path[0..pathCount-1]`. -/
structure Session where
  currRoom : Nat
  index : Int
  path : List Int
  pathCount : Nat
  deriving DecidableEq, Repr, Inhabited

/-- The loop `do { ... } while ((currRoom == NULL) && (i < NUM_ROOMS))` (lines 211-216), with
`n` iterations left to run at most: the first room of type `START_ROOM`, or `none` for
`NULL`. -/
def findStart (roomList : List Room) : Nat → Nat → Option Nat
  | 0, _ => none
  | n + 1, i => if typeAt roomList i = roomType.START_ROOM then some i else findStart roomList n (i + 1)

/-- The state of `gameOn` at the first prompt. -/
def startSession (roomList : List Room) : Option Session :=
  match findStart roomList NUM_ROOMS 0 with
  | none => none
  | some i => some { currRoom := i, index := -1, path := [], pathCount := 0 }

/-- The loop `for (j = 0; j < NUM_ROOMS; j++)` of lines 243-247: `index = j` for every `j`
with `strcmp(visited[j], buffer) == 0`; `n = NUM_ROOMS - j` iterations are left to run. -/
def matchRoom (visited : List String) (buffer : String) : Nat → Nat → Int → Int
  | 0, _, index => index
  | n + 1, j, index =>
    if visited.getD j "" = buffer then matchRoom visited buffer n (j + 1) (j : Int)
    else matchRoom visited buffer n (j + 1) index

/-- The read `currRoom->connections[index]`.  `index` is `-1` until a room name has been
entered; the `int` before `connections` in `struct Room` is the member `type`. -/
def connRead (room : Room) (index : Int) : Int :=
  if index = -1 then room.type.toInt else room.connections.getD index.toNat 0

/-- The capacity of `int path[14]`. -/
def PATH_SIZE : Nat := 14

/-- One pass from the label `Input` to the end of the `if` (lines 236-268) on the line
`buffer` read by `fgets`.  A move stores into `path[pathCount]`; the store is outside
`int path[14]` when `pathCount` is 14 or more, and the move of a room at `index = -1` is
outside `roomList`: both are `none`.  The `time` branch and the error branch change nothing
but `index`. -/
def gameStep (roomList : List Room) (visited : List String) (s : Session) (buffer : String) :
    Option Session :=
  let index := matchRoom visited buffer NUM_ROOMS 0 s.index
  if connRead (roomList.getD s.currRoom default) index = 1 then
    if 0 ≤ index ∧ s.pathCount < PATH_SIZE then
      some { currRoom := index.toNat, index := index,
             path := s.path ++ [index], pathCount := s.pathCount + 1 }
    else none
  else if buffer = "time" then some { s with index := index }
  else some { s with index := index }

/-- The loop `while (currRoom->type != END_ROOM)` over the lines of input: stops in the End
room or when the input is used up.  The `goto Input` of the `time` branch re-enters the body
without the test, in a state whose room is the one just tested. -/
def gameLoop (roomList : List Room) (visited : List String) : List String → Session →
    Option Session
  | [], s => some s
  | buffer :: rest, s =>
    if typeAt roomList s.currRoom = roomType.END_ROOM then some s
    else
      match gameStep roomList visited s buffer with
      | none => none
      | some s1 => gameLoop roomList visited rest s1

/-- What `gameOn` prints after the loop (lines 271-278): the step count `pathCount` and the
names `visited[path[i]]` for `i < pathCount`. -/
def report (visited : List String) (s : Session) : Nat × List String :=
  (s.pathCount, (s.path.take s.pathCount).map (fun k => visited.getD k.toNat ""))

/-- The function `gameOn` on the lines of input: the report, when the session reaches the End
room. -/
def gameOn (roomList : List Room) (visited : List String) (inputs : List String) :
    Option (Nat × List String) :=
  match startSession roomList with
  | none => none
  | some s0 =>
    match gameLoop roomList visited inputs s0 with
    | none => none
    | some s =>
      if typeAt roomList s.currRoom = roomType.END_ROOM then some (report visited s) else none

/-! ## Notions used to state the properties -/

/-- Well-formed room list: `NUM_ROOMS` rooms, each with `NUM_ROOMS` connection slots. -/
def WellFormed (roomList : List Room) : Prop :=
  roomList.length = NUM_ROOMS ∧
    ∀ i, i < NUM_ROOMS → (roomList.getD i default).connections.length = NUM_ROOMS

/-- The roles of a room list are assigned as `generateRooms` means them: room 0 is the one
room of type `START_ROOM`, one room `e` with `1 ≤ e < NUM_ROOMS` is the one room of type
`END_ROOM`, and every other room is of type `MID_ROOM`. -/
def RolesAssigned (roomList : List Room) : Prop :=
  roomList.length = NUM_ROOMS ∧
  ∃ e, 1 ≤ e ∧ e < NUM_ROOMS ∧
    (∀ k, k < NUM_ROOMS → (typeAt roomList k = roomType.START_ROOM ↔ k = 0)) ∧
    (∀ k, k < NUM_ROOMS → (typeAt roomList k = roomType.END_ROOM ↔ k = e)) ∧
    (∀ k, k < NUM_ROOMS → k ≠ 0 → k ≠ e → typeAt roomList k = roomType.MID_ROOM)

/-- A sample output of `getRandomList` (draws 3, 1, 4, 1, 5, 9, 2, 6, 5, 3). -/
def sampleRandomList : List Nat := [3, 2, 6, 4, 9, 0, 8, 7, 5, 1]

/-- A sample sequence of draws for `generateRooms`: one for the End room, then the draws of
the connection loops (room 0 draws its own index once and draws again). -/
def sampleDraws : List Nat :=
  [16, 7, 8, 2, 3, 10, 0, 4, 1, 5, 6, 14, 0, 13, 5, 1, 2, 6, 0, 3, 4, 9, 1]

/-- The array `list` of `getRandomList` holds a rearrangement of `0..NAME_POOL-1`: it has
`NAME_POOL` entries, each below `NAME_POOL`, no two equal. -/
def IsShuffle (list : List Nat) : Prop :=
  list.length = NAME_POOL ∧
  (∀ a, a < NAME_POOL → list.getD a 0 < NAME_POOL) ∧
  (∀ a b, a < NAME_POOL → b < NAME_POOL → list.getD a 0 = list.getD b 0 → a = b)

/-- The rooms that room `i` lists as connected (`connections[j] == 1`), in ascending index. -/
def connected (roomList : List Room) (i : Nat) : List Nat :=
  (List.range NUM_ROOMS).filter (fun j => connAt roomList i j = 1)

/-- The number of distinct rooms connected to room `i`. -/
def degree (roomList : List Room) (i : Nat) : Nat :=
  (connected roomList i).length

/-- The output of `getRandomList` when every draw is 0 (no entry moves). -/
def identityRandomList : List Nat := [0, 1, 2, 3, 4, 5, 6, 7, 8, 9]

/-- Draws on which the loops pick the same neighbour three times: room 0 draws room 1 three
times, room 1 draws room 0 three times, rooms 2 and 3 draw each other, rooms 4 and 5 draw
each other, and room 6 draws room 5.  The first draw makes room 3 the End room. -/
def repeatedDraws : List Nat :=
  [2, 1, 1, 1, 0, 0, 0, 3, 3, 3, 2, 2, 2, 5, 5, 5, 4, 4, 4, 5, 5, 5]

/-- The name of a role in a room record. -/
def roleName : roomType → String
  | .START_ROOM => "START_ROOM"
  | .MID_ROOM => "MID_ROOM"
  | .END_ROOM => "END_ROOM"

/-- A text made of the given lines, each ended by a newline. -/
def unlines : List String → String
  | [] => ""
  | l :: ls => l ++ "\n" ++ unlines ls

/-- The line `CONNECTION n: <name of j>`. -/
def connectionLine (roomList : List Room) (p : Nat × Nat) : String :=
  "CONNECTION " ++ toString p.1 ++ ": " ++ nameAt roomList p.2

/-- The record of room `i` as the specification words it: the line `ROOM NAME: <name>`, one
line `CONNECTION n: <name of j>` for each room `j` connected to `i`, in ascending `j` and
numbered from 1, then the line `ROOM TYPE: <role>`. -/
def recordLines (roomList : List Room) (i : Nat) : List String :=
  ["ROOM NAME: " ++ nameAt roomList i] ++
    ((connected roomList i).enumFrom 1).map (connectionLine roomList) ++
    ["ROOM TYPE: " ++ roleName (typeAt roomList i)]

/-- The entry name contains `DIR_PREFIX` (the test of line 86). -/
def hasPrefix (e : DirEntry) : Prop :=
  strstr e.d_name.data DIR_PREFIX.data = true

instance (e : DirEntry) : Decidable (hasPrefix e) := by
  unfold hasPrefix
  infer_instance

/-- The selection rule with ties going to the entry seen last: whenever `e` is an entry with
the prefix whose modification time is the maximum among the entries with the prefix, and no
entry after `e` reaches that time, `getLatestRoomDir` selects `e`. -/
def SelectsLastSeenLatest (entries : List DirEntry) : Prop :=
  ∀ pre e post, entries = pre ++ e :: post → hasPrefix e →
    (∀ x, x ∈ entries → hasPrefix x → x.st_mtime ≤ e.st_mtime) →
    (∀ x, x ∈ post → hasPrefix x → x.st_mtime < e.st_mtime) →
    getLatestRoomDir entries = e.d_name

/-- Two room directories with the same modification time. -/
def tiedEntries : List DirEntry :=
  [{ d_name := "depreyj.rooms.4100", st_mtime := 1700000000 },
   { d_name := "depreyj.rooms.4200", st_mtime := 1700000000 }]

/-- A word: a non-empty string without whitespace, read whole by one `%s`. -/
def IsWord (s : String) : Prop :=
  s.data ≠ [] ∧ ∀ c, c ∈ s.data → isspace c = false

/-- The words of the record of room `i`, three per line. -/
def recordWords (roomList : List Room) (i : Nat) : List String :=
  ["ROOM", "NAME:", nameAt roomList i] ++
    (((connected roomList i).enumFrom 1).map
      (fun p => ["CONNECTION", toString p.1 ++ ":", nameAt roomList p.2])).flatten ++
    ["ROOM", "TYPE:", roleName (typeAt roomList i)]

/-- Room `room`, read with the enumeration `visited`, is room `o` of `roomList` read back:
it carries the type of room `o`, and its slot `k2` is 1 exactly when `visited[k2]` is the
name of a room connected to `o` (else 0). -/
def ReadBack (roomList : List Room) (visited : List String) (room : Room) (o : Nat) : Prop :=
  room.type = typeAt roomList o ∧
  room.connections.length = NUM_ROOMS ∧
  ∀ k2, room.connections.getD k2 0 =
    if k2 < NUM_ROOMS ∧ ∃ j, j ∈ connected roomList o ∧ nameAt roomList j = visited.getD k2 ""
    then 1 else 0

/-- The room file that `generateRooms` writes for room `o`: its name and its text. -/
def roomFile (roomList : List Room) (o : Nat) : String × String :=
  (nameAt roomList o, unlines (recordLines roomList o))

/-- The room list that `readRooms` loads into `blankRooms` from the room files generated from
`sampleRandomList` and `sampleDraws`, enumerated in the order written: the types and the
connections of the generated rooms.  The member `name` is the one of `blankRooms`, since
`readRooms` does not assign it; the names of the rooms are in `sampleVisited`. -/
def sampleRooms : List Room :=
  [{ name := "", type := roomType.START_ROOM, connections := [0, 1, 1, 1, 0, 1, 0] },
   { name := "", type := roomType.MID_ROOM, connections := [1, 0, 1, 1, 1, 0, 1] },
   { name := "", type := roomType.MID_ROOM, connections := [1, 1, 0, 0, 1, 1, 1] },
   { name := "", type := roomType.MID_ROOM, connections := [1, 1, 0, 0, 0, 1, 1] },
   { name := "", type := roomType.MID_ROOM, connections := [0, 1, 1, 0, 0, 1, 1] },
   { name := "", type := roomType.END_ROOM, connections := [1, 0, 1, 1, 1, 0, 1] },
   { name := "", type := roomType.MID_ROOM, connections := [0, 1, 1, 1, 1, 1, 0] }]

/-- The array `visited` for `sampleRooms`: the names of the generated rooms, in the order
written (`field` is the Start room, `desert` the End room). -/
def sampleVisited : List String :=
  ["field", "castle", "mountain", "forest", "valley", "desert", "lake"]

/-- The contents of the arrays of `main` in adventure.c before `readRooms`, taken blank. -/
def blankRooms : List Room := List.replicate NUM_ROOMS default

/-- The contents of the name buffers before `readRooms`, taken blank. -/
def blankVisited : List String := List.replicate NUM_ROOMS ""

/-- Fourteen valid moves between the Start room `field` and `castle`, ending in `field`. -/
def fourteenMoves : List String :=
  ["castle", "field", "castle", "field", "castle", "field", "castle",
   "field", "castle", "field", "castle", "field", "castle", "field"]

/-- The session state of `sampleRooms` after `fourteenMoves`. -/
def sessionAfterFourteen : Session :=
  { currRoom := 0, index := 0,
    path := [1, 0, 1, 0, 1, 0, 1, 0, 1, 0, 1, 0, 1, 0], pathCount := 14 }

/-- The room directory of `sampleRooms` with one line more in the file of the Start room:
`CONNECTION 1: field`, the room itself. -/
def selfDirectory : Directory :=
  [("field", "ROOM NAME: field\nCONNECTION 1: field\nCONNECTION 2: castle\nCONNECTION 3: mountain\nCONNECTION 4: forest\nCONNECTION 5: desert\nROOM TYPE: START_ROOM\n"),
   ("castle", "ROOM NAME: castle\nCONNECTION 1: field\nCONNECTION 2: mountain\nCONNECTION 3: forest\nCONNECTION 4: valley\nCONNECTION 5: lake\nROOM TYPE: MID_ROOM\n"),
   ("mountain", "ROOM NAME: mountain\nCONNECTION 1: field\nCONNECTION 2: castle\nCONNECTION 3: valley\nCONNECTION 4: desert\nCONNECTION 5: lake\nROOM TYPE: MID_ROOM\n"),
   ("forest", "ROOM NAME: forest\nCONNECTION 1: field\nCONNECTION 2: castle\nCONNECTION 3: desert\nCONNECTION 4: lake\nROOM TYPE: MID_ROOM\n"),
   ("valley", "ROOM NAME: valley\nCONNECTION 1: castle\nCONNECTION 2: mountain\nCONNECTION 3: desert\nCONNECTION 4: lake\nROOM TYPE: MID_ROOM\n"),
   ("desert", "ROOM NAME: desert\nCONNECTION 1: field\nCONNECTION 2: mountain\nCONNECTION 3: forest\nCONNECTION 4: valley\nCONNECTION 5: lake\nROOM TYPE: END_ROOM\n"),
   ("lake", "ROOM NAME: lake\nCONNECTION 1: castle\nCONNECTION 2: mountain\nCONNECTION 3: forest\nCONNECTION 4: valley\nCONNECTION 5: desert\nROOM TYPE: MID_ROOM\n")]

/-- The room list that `readRooms` loads from `selfDirectory`: `sampleRooms` with the Start
room connected to itself. -/
def selfRooms : List Room :=
  setConn sampleRooms 0 0 1

/-- The session states that `gameOn` reaches: the state at the first prompt, and the state
after one more line of input in a state whose room is not the End room. -/
inductive Reachable (roomList : List Room) (visited : List String) : Session → Prop where
  | start (s : Session) : startSession roomList = some s → Reachable roomList visited s
  | step (s s1 : Session) (buffer : String) :
      Reachable roomList visited s →
      typeAt roomList s.currRoom ≠ roomType.END_ROOM →
      gameStep roomList visited s buffer = some s1 →
      Reachable roomList visited s1

/-- A directory listing: two room directories with the same latest time after an older one,
and a file without the prefix that is newer than all of them. -/
def sampleEntries : List DirEntry :=
  [{ d_name := "depreyj.rooms.3000", st_mtime := 1600000000 },
   { d_name := "depreyj.rooms.4100", st_mtime := 1700000000 },
   { d_name := "notes.txt", st_mtime := 1800000000 },
   { d_name := "depreyj.rooms.4200", st_mtime := 1700000000 }]

/-- The draws behind `sampleRandomList`. -/
def sampleShuffleDraws : List Nat := [3, 1, 4, 1, 5, 9, 2, 6, 5, 3]

/-- The values of `j` in the loops `for (j = 0; j < NUM_ROOMS; j++)` that index
`connections[j]` (buildrooms.c lines 135-137 and 179-181, adventure.c lines 155-157, 173-177
and 225-226). -/
def loopIndices : List Nat := List.range NUM_ROOMS

/-- The value of `index` in the read `currRoom->connections[index]` of line 250, on the line
`buffer` in the state `s`. -/
def stepIndex (visited : List String) (s : Session) (buffer : String) : Int :=
  matchRoom visited buffer NUM_ROOMS 0 s.index

/-- Room `b` can be reached from room `a` by following connections. -/
inductive Connects (roomList : List Room) : Nat → Nat → Prop where
  | refl (a : Nat) : Connects roomList a a
  | step (a b c : Nat) : Connects roomList a b → connAt roomList b c = 1 →
      Connects roomList a c

/-- The room list generated from `identityRandomList` and `repeatedDraws`; `readRooms` loads
its types and connections from its room files when they are enumerated in the order
written. -/
def repeatedRooms : List Room :=
  [{ name := "desert", type := roomType.START_ROOM, connections := [0, 1, 0, 0, 0, 0, 0] },
   { name := "shop", type := roomType.MID_ROOM, connections := [1, 0, 0, 0, 0, 0, 0] },
   { name := "castle", type := roomType.MID_ROOM, connections := [0, 0, 0, 1, 0, 0, 0] },
   { name := "field", type := roomType.END_ROOM, connections := [0, 0, 1, 0, 0, 0, 0] },
   { name := "forest", type := roomType.MID_ROOM, connections := [0, 0, 0, 0, 0, 1, 0] },
   { name := "village", type := roomType.MID_ROOM, connections := [0, 0, 0, 0, 1, 0, 1] },
   { name := "mountain", type := roomType.MID_ROOM, connections := [0, 0, 0, 0, 0, 1, 0] }]

/-- The array `visited` for `repeatedRooms`. -/
def repeatedVisited : List String :=
  ["desert", "shop", "castle", "field", "forest", "village", "mountain"]

/-- The names that a prompt prints after `POSSIBLE CONNECTIONS:` (lines 225-234) when the
current room is `cur`: `visited[j]` for every `j < NUM_ROOMS` with
`currRoom->connections[j] == 1`, in ascending `j`. -/
def possibleConnections (roomList : List Room) (visited : List String) (cur : Nat) :
    List String :=
  ((List.range NUM_ROOMS).filter (fun j => connAt roomList cur j = 1)).map
    (fun j => visited.getD j "")

/-- Room `k` lists some other room as connected. -/
def HasNeighbour (roomList : List Room) (k : Nat) : Prop :=
  ∃ j, j < NUM_ROOMS ∧ j ≠ k ∧ connAt roomList k j = 1

/-- The path is a walk in the room graph from room `a`: its first entry is an index of a room
connected to `a`, and every later entry is an index of a room connected to the room of the
entry before it. -/
def IsWalk (roomList : List Room) : Nat → List Int → Prop
  | _, [] => True
  | a, k :: rest => 0 ≤ k ∧ connAt roomList a k.toNat = 1 ∧ IsWalk roomList k.toNat rest

/-- The room in which a path from room `a` ends: the room of its last entry, or `a` when the
path is empty. -/
def pathEnd : Nat → List Int → Nat
  | a, [] => a
  | _, k :: rest => pathEnd k.toNat rest


/-! ## Basic facts on the room list -/

theorem length_setConn (roomList : List Room) (i j : Nat) (v : Int) :
    (setConn roomList i j v).length = roomList.length := by
  simp [setConn]

theorem length_setType (roomList : List Room) (i : Nat) (t : roomType) :
    (setType roomList i t).length = roomList.length := by
  simp [setType]

theorem getD_setConn (roomList : List Room) (a b : Nat) (v : Int) (i : Nat) :
    (setConn roomList a b v).getD i default =
      if i = a then
        { roomList.getD a default with
          connections := (roomList.getD a default).connections.set b v }
      else roomList.getD i default := by
  unfold setConn
  by_cases h : i = a
  · subst h
    by_cases hl : i < roomList.length
    · simp [List.getElem?_set, hl]
    · have hl2 : roomList.length ≤ i := Nat.le_of_not_lt hl
      simp [List.getElem?_set, hl, List.getElem?_eq_none hl2]
      rfl
  · have h2 : a ≠ i := fun e => h e.symm
    simp [List.getElem?_set, h, h2]

theorem getD_setType (roomList : List Room) (a : Nat) (t : roomType) (i : Nat) :
    i < roomList.length →
    (setType roomList a t).getD i default =
      if i = a then { roomList.getD a default with type := t }
      else roomList.getD i default := by
  intro hl
  unfold setType
  by_cases h : i = a
  · subst h
    simp [List.getElem?_set, hl]
  · have h2 : a ≠ i := fun e => h e.symm
    simp [List.getElem?_set, h, h2]

theorem connAt_setConn (roomList : List Room) (a b : Nat) (v : Int) (i j : Nat)
    (hb : b < (roomList.getD a default).connections.length) :
    connAt (setConn roomList a b v) i j =
      if i = a ∧ j = b then v else connAt roomList i j := by
  unfold connAt
  rw [getD_setConn]
  by_cases h : i = a
  · subst h
    by_cases h2 : j = b
    · subst h2
      simp only [List.getD_eq_getElem?_getD] at hb
      simp [List.getElem?_set, hb]
    · have h3 : b ≠ j := fun e => h2 e.symm
      simp [List.getElem?_set, h2, h3]
  · simp [h]

theorem typeAt_setConn (roomList : List Room) (a b : Nat) (v : Int) (i : Nat) :
    typeAt (setConn roomList a b v) i = typeAt roomList i := by
  unfold typeAt
  rw [getD_setConn]
  by_cases h : i = a
  · subst h; simp
  · simp [h]

theorem nameAt_setConn (roomList : List Room) (a b : Nat) (v : Int) (i : Nat) :
    nameAt (setConn roomList a b v) i = nameAt roomList i := by
  unfold nameAt
  rw [getD_setConn]
  by_cases h : i = a
  · subst h; simp
  · simp [h]

theorem wellFormed_setConn (roomList : List Room) (a b : Nat) (v : Int)
    (h : WellFormed roomList) : WellFormed (setConn roomList a b v) := by
  refine ⟨by rw [length_setConn]; exact h.1, ?_⟩
  intro i hi
  rw [getD_setConn]
  by_cases e : i = a
  · subst e
    simp only [if_true, List.length_set]
    exact h.2 i hi
  · simp only [e, if_false]
    exact h.2 i hi

/-! ## The connection loops of `generateRooms` -/

theorem drawOther_spec (i : Nat) :
    ∀ (draws : List Nat) (random : Nat) (rest : List Nat),
      drawOther i draws = some (random, rest) → random < NUM_ROOMS ∧ random ≠ i := by
  intro draws
  induction draws with
  | nil => intro random rest h; simp [drawOther] at h
  | cons r draws ih =>
    intro random rest h
    simp only [drawOther] at h
    by_cases e : getRandomInt 0 6 r = i
    · rw [if_pos e] at h
      exact ih random rest h
    · rw [if_neg e] at h
      simp only [Option.some.injEq, Prod.mk.injEq] at h
      obtain ⟨h1, _⟩ := h
      subst h1
      refine ⟨?_, e⟩
      unfold getRandomInt NUM_ROOMS
      omega

/-- A property kept by every pair of stores `connections[random] = 1` of room `i` is kept by
the `while` loop of room `i`. -/
theorem connectLoop_inv (P : List Room → Prop) (i : Nat)
    (hP : ∀ roomList random, random < NUM_ROOMS → random ≠ i → P roomList →
      P (setConn (setConn roomList i random 1) random i 1)) :
    ∀ (n connects : Nat) (roomList : List Room) (draws : List Nat)
      (res : Nat × List Room × List Nat),
      connectLoop i n connects roomList draws = some res → P roomList → P res.2.1 := by
  intro n
  induction n with
  | zero =>
    intro connects roomList draws res h hp
    simp only [connectLoop, Option.some.injEq] at h
    subst h
    exact hp
  | succ n ih =>
    intro connects roomList draws res h hp
    simp only [connectLoop] at h
    cases hd : drawOther i draws with
    | none => rw [hd] at h; simp at h
    | some p =>
      obtain ⟨random, rest⟩ := p
      rw [hd] at h
      simp only at h
      have hr := drawOther_spec i draws random rest hd
      exact ih _ _ _ res h (hP roomList random hr.1 hr.2 hp)

/-- The `while` loop of a room runs `n` times: the counter ends at `connects + n`. -/
theorem connectLoop_counter (i : Nat) :
    ∀ (n connects : Nat) (roomList : List Room) (draws : List Nat)
      (res : Nat × List Room × List Nat),
      connectLoop i n connects roomList draws = some res → res.1 = connects + n := by
  intro n
  induction n with
  | zero =>
    intro connects roomList draws res h
    simp only [connectLoop, Option.some.injEq] at h
    subst h
    rfl
  | succ n ih =>
    intro connects roomList draws res h
    simp only [connectLoop] at h
    cases hd : drawOther i draws with
    | none => rw [hd] at h; simp at h
    | some p =>
      obtain ⟨random, rest⟩ := p
      rw [hd] at h
      simp only at h
      have := ih _ _ _ res h
      omega

theorem connectRooms_inv (P : List Room → Prop)
    (hP : ∀ i roomList random, i < NUM_ROOMS → random < NUM_ROOMS → random ≠ i → P roomList →
      P (setConn (setConn roomList i random 1) random i 1)) :
    ∀ (n i : Nat) (roomList : List Room) (draws : List Nat) (res : List Room × List Nat),
      i + n ≤ NUM_ROOMS → connectRooms n i roomList draws = some res → P roomList →
      P res.1 := by
  intro n
  induction n with
  | zero =>
    intro i roomList draws res _ h hp
    simp only [connectRooms, Option.some.injEq] at h
    subst h
    exact hp
  | succ n ih =>
    intro i roomList draws res hle h hp
    simp only [connectRooms] at h
    cases hc : connectLoop i MIN_CONN 0 roomList draws with
    | none => rw [hc] at h; simp at h
    | some q =>
      obtain ⟨c, roomList1, rest⟩ := q
      rw [hc] at h
      simp only at h
      have hi : i < NUM_ROOMS := by omega
      have h1 : P roomList1 :=
        connectLoop_inv P i (fun rl random hr hne hp => hP i rl random hi hr hne hp)
          MIN_CONN 0 roomList draws (c, roomList1, rest) hc hp
      exact ih (i + 1) roomList1 rest res (by omega) h h1

/-- A property of the room list after the role assignment that every pair of stores of the
connection loops keeps holds of the generated room list. -/
theorem generateRooms_inv (P : List Room → Prop)
    (hP : ∀ i roomList random, i < NUM_ROOMS → random < NUM_ROOMS → random ≠ i → P roomList →
      P (setConn (setConn roomList i random 1) random i 1))
    (randomList draws : List Nat) (roomList : List Room)
    (h : generateRooms randomList draws = some roomList) :
    ∃ r rest, draws = r :: rest ∧ (P (assignRoles (initRooms randomList) r) → P roomList) := by
  cases draws with
  | nil => simp [generateRooms] at h
  | cons r rest =>
    refine ⟨r, rest, rfl, ?_⟩
    intro hp
    simp only [generateRooms] at h
    cases hc : connectRooms NUM_ROOMS 0 (assignRoles (initRooms randomList) r) rest with
    | none => rw [hc] at h; simp at h
    | some q =>
      rw [hc] at h
      simp only [Option.some.injEq] at h
      subst h
      exact connectRooms_inv P hP NUM_ROOMS 0 _ rest q (by omega) hc hp

/-! ## The room list before the connection loops -/

theorem getD_initRooms (randomList : List Nat) (i : Nat) (hi : i < NUM_ROOMS) :
    (initRooms randomList).getD i default =
      { name := rooms.getD (randomList.getD i 0) "",
        type := roomType.MID_ROOM,
        connections := List.replicate NUM_ROOMS 0 } := by
  simp [initRooms, List.getElem?_range hi]

theorem length_initRooms (randomList : List Nat) :
    (initRooms randomList).length = NUM_ROOMS := by
  simp [initRooms]

theorem wellFormed_setType (roomList : List Room) (a : Nat) (t : roomType)
    (h : WellFormed roomList) : WellFormed (setType roomList a t) := by
  refine ⟨by rw [length_setType]; exact h.1, ?_⟩
  intro i hi
  rw [getD_setType _ _ _ _ (by rw [h.1]; exact hi)]
  by_cases e : i = a
  · subst e
    simp only [if_true]
    exact h.2 i hi
  · simp only [e, if_false]
    exact h.2 i hi

theorem connAt_setType (roomList : List Room) (a : Nat) (t : roomType) (i j : Nat)
    (hi : i < roomList.length) :
    connAt (setType roomList a t) i j = connAt roomList i j := by
  unfold connAt
  rw [getD_setType _ _ _ _ hi]
  by_cases e : i = a
  · subst e; simp
  · simp [e]

theorem nameAt_setType (roomList : List Room) (a : Nat) (t : roomType) (i : Nat)
    (hi : i < roomList.length) :
    nameAt (setType roomList a t) i = nameAt roomList i := by
  unfold nameAt
  rw [getD_setType _ _ _ _ hi]
  by_cases e : i = a
  · subst e; simp
  · simp [e]

theorem typeAt_setType (roomList : List Room) (a : Nat) (t : roomType) (i : Nat)
    (hi : i < roomList.length) :
    typeAt (setType roomList a t) i = if i = a then t else typeAt roomList i := by
  unfold typeAt
  rw [getD_setType _ _ _ _ hi]
  by_cases e : i = a
  · subst e; simp
  · simp [e]

theorem wellFormed_initRooms (randomList : List Nat) : WellFormed (initRooms randomList) := by
  refine ⟨length_initRooms randomList, ?_⟩
  intro i hi
  rw [getD_initRooms randomList i hi]
  simp

theorem wellFormed_assignRoles (randomList : List Nat) (r : Nat) :
    WellFormed (assignRoles (initRooms randomList) r) := by
  unfold assignRoles
  exact wellFormed_setType _ _ _ (wellFormed_setType _ _ _ (wellFormed_initRooms randomList))

theorem connAt_assignRoles (randomList : List Nat) (r : Nat) (i j : Nat) :
    connAt (assignRoles (initRooms randomList) r) i j = 0 := by
  by_cases hi : i < NUM_ROOMS
  · unfold assignRoles
    simp only
    rw [connAt_setType _ _ _ _ _ (by rw [length_setType, length_initRooms]; exact hi),
      connAt_setType _ _ _ _ _ (by rw [length_initRooms]; exact hi)]
    unfold connAt
    rw [getD_initRooms randomList i hi]
    simp only [List.getD_eq_getElem?_getD, List.getElem?_replicate]
    by_cases hj : j < NUM_ROOMS
    · simp [hj]
    · simp [hj]
  · have hl : (assignRoles (initRooms randomList) r).length ≤ i := by
      rw [(wellFormed_assignRoles randomList r).1]; omega
    unfold connAt
    rw [List.getD_eq_default _ _ hl]
    rfl

theorem nameAt_assignRoles (randomList : List Nat) (r : Nat) (i : Nat) (hi : i < NUM_ROOMS) :
    nameAt (assignRoles (initRooms randomList) r) i = rooms.getD (randomList.getD i 0) "" := by
  unfold assignRoles
  simp only
  rw [nameAt_setType _ _ _ _ (by rw [length_setType, length_initRooms]; exact hi),
    nameAt_setType _ _ _ _ (by rw [length_initRooms]; exact hi)]
  unfold nameAt
  rw [getD_initRooms randomList i hi]

theorem typeAt_assignRoles (randomList : List Nat) (r : Nat) (i : Nat) (hi : i < NUM_ROOMS) :
    typeAt (assignRoles (initRooms randomList) r) i =
      if i = getRandomInt 1 6 r then roomType.END_ROOM
      else if i = 0 then roomType.START_ROOM else roomType.MID_ROOM := by
  unfold assignRoles
  simp only
  rw [typeAt_setType _ _ _ _ (by rw [length_setType, length_initRooms]; exact hi),
    typeAt_setType _ _ _ _ (by rw [length_initRooms]; exact hi)]
  unfold typeAt
  rw [getD_initRooms randomList i hi]

/-- The stores of one pass of the `while` loop, read back. -/
theorem connAt_link (roomList : List Room) (i random : Nat) (hw : WellFormed roomList)
    (hi : i < NUM_ROOMS) (hr : random < NUM_ROOMS) (a b : Nat) :
    connAt (setConn (setConn roomList i random 1) random i 1) a b =
      if (a = random ∧ b = i) ∨ (a = i ∧ b = random) then 1 else connAt roomList a b := by
  have hw1 := wellFormed_setConn roomList i random 1 hw
  rw [connAt_setConn _ _ _ _ _ _ (by rw [hw1.2 random hr]; exact hi),
    connAt_setConn _ _ _ _ _ _ (by rw [hw.2 i hi]; exact hr)]
  by_cases h1 : a = random ∧ b = i
  · simp [h1]
  · by_cases h2 : a = i ∧ b = random
    · simp [h1, h2]
    · simp [h1, h2]

theorem wellFormed_link (roomList : List Room) (i random : Nat) (hw : WellFormed roomList) :
    WellFormed (setConn (setConn roomList i random 1) random i 1) :=
  wellFormed_setConn _ _ _ _ (wellFormed_setConn _ _ _ _ hw)

theorem generateRooms_wellFormed (randomList draws : List Nat) (roomList : List Room)
    (h : generateRooms randomList draws = some roomList) : WellFormed roomList := by
  obtain ⟨r, rest, _, hp⟩ := generateRooms_inv WellFormed
    (fun i rl random _ _ _ hw => wellFormed_link rl i random hw) randomList draws roomList h
  exact hp (wellFormed_assignRoles randomList r)

/-- Claim C1. On every sequence of draws on which `generateRooms` finishes, the connection
relation of the generated room list is symmetric: for all room indices `a`, `b` below
`NUM_ROOMS`, room `a` lists `b` as connected if and only if room `b` lists `a`. -/
theorem generateRooms_symmetric (randomList draws : List Nat) (roomList : List Room)
    (h : generateRooms randomList draws = some roomList) :
    ∀ a b, a < NUM_ROOMS → b < NUM_ROOMS →
      (connAt roomList a b = 1 ↔ connAt roomList b a = 1) := by
  obtain ⟨r, rest, _, hp⟩ := generateRooms_inv
    (fun rl => WellFormed rl ∧ ∀ a b, connAt rl a b = connAt rl b a)
    (fun i rl random hi hr _ hw => by
      refine ⟨wellFormed_link rl i random hw.1, ?_⟩
      intro a b
      rw [connAt_link rl i random hw.1 hi hr, connAt_link rl i random hw.1 hi hr, hw.2 a b]
      by_cases h1 : a = random ∧ b = i
      · have h1c : b = i ∧ a = random := ⟨h1.2, h1.1⟩
        simp [h1, h1c]
      · by_cases h2 : a = i ∧ b = random
        · have h2c : b = random ∧ a = i := ⟨h2.2, h2.1⟩
          simp [h2, h2c]
        · have h3 : ¬ (b = random ∧ a = i) := fun e => h2 ⟨e.2, e.1⟩
          have h4 : ¬ (b = i ∧ a = random) := fun e => h1 ⟨e.2, e.1⟩
          simp [h1, h2, h3, h4])
    randomList draws roomList h
  have hs := hp ⟨wellFormed_assignRoles randomList r, fun a b => by
    rw [connAt_assignRoles, connAt_assignRoles]⟩
  intro a b _ _
  rw [hs.2 a b]

theorem rolesAssigned_assignRoles (randomList : List Nat) (r : Nat) :
    RolesAssigned (assignRoles (initRooms randomList) r) := by
  refine ⟨(wellFormed_assignRoles randomList r).1, getRandomInt 1 6 r, ?_, ?_, ?_, ?_, ?_⟩
  · unfold getRandomInt; omega
  · unfold getRandomInt NUM_ROOMS; omega
  · intro k hk
    rw [typeAt_assignRoles randomList r k hk]
    have : 1 ≤ getRandomInt 1 6 r := by unfold getRandomInt; omega
    by_cases h1 : k = getRandomInt 1 6 r
    · have : k ≠ 0 := by omega
      simp [h1]
      omega
    · by_cases h2 : k = 0
      · simp [h1, h2]
        omega
      · simp [h1, h2]
  · intro k hk
    rw [typeAt_assignRoles randomList r k hk]
    by_cases h1 : k = getRandomInt 1 6 r
    · simp [h1]
    · by_cases h2 : k = 0
      · simp [h1, h2]
      · simp [h1, h2]
  · intro k hk h0 he
    rw [typeAt_assignRoles randomList r k hk]
    simp [h0, he]

theorem rolesAssigned_link (roomList : List Room) (i random : Nat)
    (h : RolesAssigned roomList) :
    RolesAssigned (setConn (setConn roomList i random 1) random i 1) := by
  obtain ⟨hl, e, h1, h2, h3, h4, h5⟩ := h
  refine ⟨by rw [length_setConn, length_setConn]; exact hl, e, h1, h2, ?_, ?_, ?_⟩
  · intro k hk
    rw [typeAt_setConn, typeAt_setConn]
    exact h3 k hk
  · intro k hk
    rw [typeAt_setConn, typeAt_setConn]
    exact h4 k hk
  · intro k hk h0 he
    rw [typeAt_setConn, typeAt_setConn]
    exact h5 k hk h0 he

/-- Claim C2. For every sequence of draws the room list built by `generateRooms` has exactly
one room of type `START_ROOM` (index 0), exactly one room of type `END_ROOM` (an index in
`1..NUM_ROOMS-1`, so a different room), and every other room is `MID_ROOM`: this holds right
after the role assignment for every draw, and of every generated room list. -/
theorem generateRooms_roles (randomList : List Nat) :
    (∀ r, RolesAssigned (assignRoles (initRooms randomList) r)) ∧
    (∀ draws roomList, generateRooms randomList draws = some roomList →
      RolesAssigned roomList) := by
  refine ⟨rolesAssigned_assignRoles randomList, ?_⟩
  intro draws roomList h
  obtain ⟨r, rest, _, hp⟩ := generateRooms_inv RolesAssigned
    (fun i rl random _ _ _ hr => rolesAssigned_link rl i random hr) randomList draws roomList h
  exact hp (rolesAssigned_assignRoles randomList r)

/-! ## The shuffle of `getRandomList` -/

theorem rooms_injective :
    ∀ a, a < NAME_POOL → ∀ b, b < NAME_POOL → rooms.getD a "" = rooms.getD b "" → a = b := by
  decide

theorem rooms_mem (a : Nat) (ha : a < NAME_POOL) : rooms.getD a "" ∈ rooms := by
  have hl : a < rooms.length := ha
  rw [List.getD_eq_getElem _ _ hl]
  exact List.getElem_mem hl

theorem length_shuffleStep (list : List Nat) (i r : Nat) :
    (shuffleStep list i r).length = list.length := by
  simp [shuffleStep]

theorem getD_shuffleStep (list : List Nat) (i r : Nat) (hl : list.length = NAME_POOL)
    (hi : i < NAME_POOL) (k : Nat) :
    (shuffleStep list i r).getD k 0 =
      if k = i + r % (NAME_POOL - i) then list.getD i 0
      else if k = i then list.getD (i + r % (NAME_POOL - i)) 0
      else list.getD k 0 := by
  have hj : i + r % (NAME_POOL - i) < NAME_POOL := by
    have : r % (NAME_POOL - i) < NAME_POOL - i := Nat.mod_lt _ (by omega)
    omega
  simp only [shuffleStep]
  generalize i + r % (NAME_POOL - i) = j at hj
  simp only [List.getD_eq_getElem?_getD, List.getElem?_set, List.length_set]
  by_cases h1 : k = j
  · subst h1
    simp [hl, hj]
  · have h1c : ¬ j = k := fun e => h1 e.symm
    by_cases h2 : k = i
    · subst h2
      simp [h1, h1c, hl, hi]
    · have h2c : ¬ i = k := fun e => h2 e.symm
      simp [h1, h1c, h2, h2c]

theorem isShuffle_shuffleStep (list : List Nat) (i r : Nat) (h : IsShuffle list)
    (hi : i < NAME_POOL) : IsShuffle (shuffleStep list i r) := by
  obtain ⟨hl, hb, hinj⟩ := h
  have hj : i + r % (NAME_POOL - i) < NAME_POOL := by
    have : r % (NAME_POOL - i) < NAME_POOL - i := Nat.mod_lt _ (by omega)
    omega
  refine ⟨by rw [length_shuffleStep]; exact hl, ?_, ?_⟩
  · intro a ha
    rw [getD_shuffleStep list i r hl hi]
    split_ifs
    · exact hb i hi
    · exact hb _ hj
    · exact hb a ha
  · intro a b ha hb2
    rw [getD_shuffleStep list i r hl hi, getD_shuffleStep list i r hl hi]
    generalize i + r % (NAME_POOL - i) = j at hj
    intro e
    split_ifs at e with h1 h2 h3 h4 h5 h6 h7 h8
    · omega
    · have := hinj _ _ hi hj e; omega
    · have := hinj _ _ hi hb2 e; omega
    · have := hinj _ _ hj hi e; omega
    · omega
    · have := hinj _ _ hj hb2 e; omega
    · have := hinj _ _ ha hi e; omega
    · have := hinj _ _ ha hj e; omega
    · exact hinj _ _ ha hb2 e

theorem isShuffle_range : IsShuffle (List.range NAME_POOL) := by
  refine ⟨by simp, ?_, ?_⟩
  · intro a ha
    simp [List.getElem?_range ha]
    exact ha
  · intro a b ha hb
    simp [List.getElem?_range ha, List.getElem?_range hb]

theorem getRandomListLoop_spec :
    ∀ (n i : Nat) (list randoms draws : List Nat) (res : List Nat × List Nat),
      i + n ≤ NAME_POOL → IsShuffle list →
      randoms.length = i → (∀ k, k < i → randoms.getD k 0 = list.getD k 0) →
      getRandomListLoop n i list randoms draws = some res →
      ∃ list1, IsShuffle list1 ∧ res.1.length = i + n ∧
        ∀ k, k < i + n → res.1.getD k 0 = list1.getD k 0 := by
  intro n
  induction n with
  | zero =>
    intro i list randoms draws res _ hs hlen hr h
    simp only [getRandomListLoop, Option.some.injEq] at h
    subst h
    exact ⟨list, hs, hlen, hr⟩
  | succ n ih =>
    intro i list randoms draws res hle hs hlen hr h
    cases draws with
    | nil => simp [getRandomListLoop] at h
    | cons r draws =>
      simp only [getRandomListLoop] at h
      have hi : i < NAME_POOL := by omega
      have hs2 := isShuffle_shuffleStep list i r hs hi
      have := ih (i + 1) (shuffleStep list i r)
        (randoms ++ [(shuffleStep list i r).getD i 0]) draws res (by omega) hs2
        (by simp [hlen]) (by
          intro k hk
          by_cases hki : k < i
          · have e1 : (randoms ++ [(shuffleStep list i r).getD i 0]).getD k 0
                = randoms.getD k 0 := by
              simp only [List.getD_eq_getElem?_getD]
              rw [List.getElem?_append_left (by omega)]
            rw [e1, hr k hki, getD_shuffleStep list i r hs.1 hi]
            have h1 : ¬ k = i + r % (NAME_POOL - i) := by omega
            have h2 : ¬ k = i := by omega
            simp [h1, h2]
          · have hk2 : k = i := by omega
            subst hk2
            simp only [List.getD_eq_getElem?_getD]
            rw [List.getElem?_append_right (by omega)]
            simp [hlen]) h
      obtain ⟨list1, h1, h2, h3⟩ := this
      exact ⟨list1, h1, by omega, fun k hk => h3 k (by omega)⟩

/-- The loop of `getRandomList` returns when it has `n` draws. -/
theorem getRandomListLoop_total :
    ∀ (n i : Nat) (list randoms draws : List Nat), n ≤ draws.length →
      ∃ res, getRandomListLoop n i list randoms draws = some res := by
  intro n
  induction n with
  | zero => intro i list randoms draws _; exact ⟨_, rfl⟩
  | succ n ih =>
    intro i list randoms draws h
    cases draws with
    | nil => simp at h
    | cons r draws =>
      simp only [getRandomListLoop]
      exact ih _ _ _ _ (by simpa using h)

theorem getRandomList_spec (draws randoms rest : List Nat)
    (h : getRandomList NAME_POOL draws = some (randoms, rest)) :
    randoms.length = NAME_POOL ∧ randoms.Nodup ∧ ∀ x, x ∈ randoms → x < NAME_POOL := by
  obtain ⟨list1, hs, hlen, hget⟩ := getRandomListLoop_spec NAME_POOL 0 (List.range NAME_POOL)
    [] draws (randoms, rest) (by omega) isShuffle_range rfl (by intro k hk; omega) h
  simp only [Nat.zero_add] at hlen hget
  refine ⟨hlen, ?_, ?_⟩
  · rw [List.nodup_iff_getElem?_ne_getElem?]
    intro a b hab hb e
    rw [hlen] at hb
    have ha : a < NAME_POOL := by omega
    have e2 : randoms.getD a 0 = randoms.getD b 0 := by
      simp only [List.getD_eq_getElem?_getD, e]
    rw [hget a ha, hget b hb] at e2
    have := hs.2.2 a b ha hb e2
    omega
  · intro x hx
    obtain ⟨k, hk, e⟩ := List.getElem_of_mem hx
    rw [hlen] at hk
    have e2 : randoms.getD k 0 = x := by
      rw [List.getD_eq_getElem _ _ (by rw [hlen]; exact hk)]
      exact e
    rw [← e2, hget k hk]
    exact hs.2.1 k hk

theorem generateRooms_names (randomList draws : List Nat) (roomList : List Room)
    (h : generateRooms randomList draws = some roomList) :
    ∀ i, i < NUM_ROOMS → nameAt roomList i = rooms.getD (randomList.getD i 0) "" := by
  obtain ⟨r, rest, _, hp⟩ := generateRooms_inv
    (fun rl => ∀ i, i < NUM_ROOMS → nameAt rl i = rooms.getD (randomList.getD i 0) "")
    (fun i rl random _ _ _ hn k hk => by
      rw [nameAt_setConn, nameAt_setConn]
      exact hn k hk)
    randomList draws roomList h
  exact hp (fun i hi => nameAt_assignRoles randomList r i hi)

/-- The rooms generated from an output of `getRandomList` carry names of the pool, no two
rooms the same name. -/
theorem generateRooms_names_distinct (draws randoms rest draws2 : List Nat)
    (roomList : List Room) (h : getRandomList NAME_POOL draws = some (randoms, rest))
    (hg : generateRooms randoms draws2 = some roomList) :
    (∀ i, i < NUM_ROOMS → nameAt roomList i ∈ rooms) ∧
    (∀ i j, i < NUM_ROOMS → j < NUM_ROOMS →
      nameAt roomList i = nameAt roomList j → i = j) := by
  have hs := getRandomList_spec draws randoms rest h
  have hn := generateRooms_names randoms draws2 roomList hg
  have hlt : ∀ i, i < NUM_ROOMS → randoms.getD i 0 < NAME_POOL := by
    intro i hi
    have hi2 : i < randoms.length := by rw [hs.1]; unfold NUM_ROOMS NAME_POOL at *; omega
    rw [List.getD_eq_getElem _ _ hi2]
    exact hs.2.2 _ (List.getElem_mem hi2)
  refine ⟨?_, ?_⟩
  · intro i hi
    rw [hn i hi]
    exact rooms_mem _ (hlt i hi)
  · intro i j hi hj e
    rw [hn i hi, hn j hj] at e
    have e2 := rooms_injective _ (hlt i hi) _ (hlt j hj) e
    have hi2 : i < randoms.length := by rw [hs.1]; unfold NUM_ROOMS NAME_POOL at *; omega
    have hj2 : j < randoms.length := by rw [hs.1]; unfold NUM_ROOMS NAME_POOL at *; omega
    rw [List.getD_eq_getElem _ _ hi2, List.getD_eq_getElem _ _ hj2] at e2
    exact (hs.2.1.getElem_inj_iff).1 e2

/-- Claim C3. For every sequence of draws, `getRandomList(NAME_POOL, randoms)` returns (it uses
`NAME_POOL` draws), the indices it produces are pairwise distinct and each lies in
`0..NAME_POOL-1`; so the `NUM_ROOMS` names that `generateRooms` gives the rooms all belong to
the pool `rooms` and are pairwise distinct. -/
theorem getRandomList_distinct (draws : List Nat) :
    (NAME_POOL ≤ draws.length → ∃ res, getRandomList NAME_POOL draws = some res) ∧
    ∀ randoms rest, getRandomList NAME_POOL draws = some (randoms, rest) →
      (randoms.length = NAME_POOL ∧ randoms.Nodup ∧ ∀ x, x ∈ randoms → x < NAME_POOL) ∧
      ∀ draws2 roomList, generateRooms randoms draws2 = some roomList →
        (∀ i, i < NUM_ROOMS → nameAt roomList i ∈ rooms) ∧
        (∀ i j, i < NUM_ROOMS → j < NUM_ROOMS →
          nameAt roomList i = nameAt roomList j → i = j) := by
  refine ⟨fun hl => getRandomListLoop_total NAME_POOL 0 _ _ draws hl, ?_⟩
  intro randoms rest h
  exact ⟨getRandomList_spec draws randoms rest h, fun draws2 roomList hg =>
    generateRooms_names_distinct draws randoms rest draws2 roomList h hg⟩

/-- Claim C4, the code at the failing input. On the draws `repeatedDraws` the generator
finishes, room 0 has made its `MIN_CONN` passes of the loop, and it is connected to one room
only: fewer distinct connections than `MIN_CONN`. -/
theorem generateRooms_degree_below_min :
    getRandomList NAME_POOL [0, 0, 0, 0, 0, 0, 0, 0, 0, 0] = some (identityRandomList, []) ∧
    ∃ roomList, generateRooms identityRandomList repeatedDraws = some roomList ∧
      connected roomList 0 = [1] ∧ degree roomList 0 = 1 ∧ degree roomList 0 < MIN_CONN := by
  refine ⟨rfl, _, rfl, ?_, ?_, ?_⟩ <;> decide

/-! ## The room records written by `generateRooms` -/

theorem unlines_append (a b : List String) : unlines (a ++ b) = unlines a ++ unlines b := by
  induction a with
  | nil => simp [unlines]
  | cons x a ih => simp [unlines, ih, String.append_assoc]

theorem typeString_eq_roleName (t : roomType) : typeString t = roleName t := by
  cases t <;> rfl

theorem writeConnections_eq (roomList : List Room) (i : Nat) :
    ∀ (n j counter : Nat) (out : String),
      (writeConnections roomList i n j counter out).2 =
        out ++ unlines ((((List.range' j n).filter
          (fun j => connAt roomList i j = 1)).enumFrom counter).map
            (connectionLine roomList)) := by
  intro n
  induction n with
  | zero => intro j counter out; simp [writeConnections, unlines]
  | succ n ih =>
    intro j counter out
    simp only [writeConnections, List.range'_succ]
    by_cases h : connAt roomList i j = 1
    · rw [if_pos h, ih]
      simp [List.filter_cons, h, List.enumFrom, unlines, connectionLine, String.append_assoc]
    · rw [if_neg h, ih]
      simp [List.filter_cons, h]

theorem writeRoom_eq (roomList : List Room) (i : Nat) :
    writeRoom roomList i = unlines (recordLines roomList i) := by
  unfold writeRoom recordLines connected
  simp only [writeConnections_eq, unlines_append, List.range_eq_range', NUM_ROOMS,
    typeString_eq_roleName]
  simp [unlines, String.append_assoc]

theorem writeFile_fresh (dir : Directory) (name content : String)
    (h : ∀ e, e ∈ dir → e.1 ≠ name) : writeFile dir name content = dir ++ [(name, content)] := by
  unfold writeFile
  have : dir.any (fun e => e.1 == name) = false := by
    rw [List.any_eq_false]
    intro e he
    simpa using h e he
  rw [this]
  simp

theorem writeRooms_eq (roomList : List Room) :
    ∀ (n i : Nat) (dir : Directory),
      (∀ a b, i ≤ a → a < i + n → i ≤ b → b < i + n →
        nameAt roomList a = nameAt roomList b → a = b) →
      (∀ e, e ∈ dir → ∀ a, i ≤ a → a < i + n → e.1 ≠ nameAt roomList a) →
      writeRooms roomList n i dir =
        dir ++ (List.range' i n).map (fun k => (nameAt roomList k, writeRoom roomList k)) := by
  intro n
  induction n with
  | zero => intro i dir _ _; simp [writeRooms]
  | succ n ih =>
    intro i dir hinj hfresh
    simp only [writeRooms]
    rw [writeFile_fresh dir _ _ (fun e he => hfresh e he i (by omega) (by omega))]
    rw [ih (i + 1)]
    · simp [List.range'_succ]
    · intro a b h1 h2 h3 h4 e
      exact hinj a b (by omega) (by omega) (by omega) (by omega) e
    · intro e he a h1 h2
      rw [List.mem_append] at he
      rcases he with he | he
      · exact hfresh e he a (by omega) (by omega)
      · simp only [List.mem_singleton] at he
        subst he
        intro e2
        have := hinj i a (by omega) (by omega) (by omega) (by omega) e2
        omega

theorem generateRoomFiles_dir (draws randoms rest draws2 : List Nat) (roomList : List Room)
    (dir : Directory) (h : getRandomList NAME_POOL draws = some (randoms, rest))
    (hg : generateRoomFiles randoms draws2 = some (roomList, dir)) :
    generateRooms randoms draws2 = some roomList ∧
    dir = (List.range NUM_ROOMS).map (roomFile roomList) := by
  unfold generateRoomFiles at hg
  cases hr : generateRooms randoms draws2 with
  | none => rw [hr] at hg; simp at hg
  | some rl =>
    rw [hr] at hg
    simp only [Option.some.injEq, Prod.mk.injEq] at hg
    obtain ⟨e1, e2⟩ := hg
    subst e1
    refine ⟨rfl, ?_⟩
    have hd := generateRooms_names_distinct draws randoms rest draws2 rl h hr
    rw [← e2, writeRooms_eq rl NUM_ROOMS 0 []
      (fun a b _ h2 _ h4 e => hd.2 a b (by omega) (by omega) e)
      (fun e he => by simp at he)]
    simp only [List.nil_append, List.range_eq_range']
    apply List.map_congr_left
    intro a _
    simp only [roomFile, writeRoom_eq]

/-- Claim C9. The text written for room `i` is the line `ROOM NAME: <name of i>`, then one line
`CONNECTION n: <name of j>` for each room `j` connected to `i`, in ascending index `j` and
numbered `n = 1, 2, ...` consecutively, then the line `ROOM TYPE: ` with `START_ROOM`,
`MID_ROOM` or `END_ROOM` according to the type of the room; and the directory that
`generateRooms` leaves holds exactly these records, the one of room `i` in the file named
after room `i`. -/
theorem writeRoom_format :
    (∀ roomList i, writeRoom roomList i = unlines (recordLines roomList i)) ∧
    (∀ roomList i, recordLines roomList i =
      ["ROOM NAME: " ++ nameAt roomList i] ++
        (((List.range NUM_ROOMS).filter (fun j => connAt roomList i j = 1)).enumFrom 1).map
          (fun p => "CONNECTION " ++ toString p.1 ++ ": " ++ nameAt roomList p.2) ++
        ["ROOM TYPE: " ++
          (match typeAt roomList i with
           | .START_ROOM => "START_ROOM"
           | .MID_ROOM => "MID_ROOM"
           | .END_ROOM => "END_ROOM")]) ∧
    (∀ draws randoms rest draws2 roomList dir,
      getRandomList NAME_POOL draws = some (randoms, rest) →
      generateRoomFiles randoms draws2 = some (roomList, dir) →
      dir = (List.range NUM_ROOMS).map (roomFile roomList)) ∧
    (∀ roomList i, roomFile roomList i =
      (nameAt roomList i, unlines (recordLines roomList i))) := by
  refine ⟨writeRoom_eq, ?_, ?_, fun _ _ => rfl⟩
  · intro roomList i
    rfl
  · intro draws randoms rest draws2 roomList dir h hg
    exact (generateRoomFiles_dir draws randoms rest draws2 roomList dir h hg).2

/-! ## `getLatestRoomDir` -/

theorem getLatestLoop_spec :
    ∀ (entries : List DirEntry) (latest : Int) (roomDir : String),
      ((∀ x, x ∈ entries → hasPrefix x → castInt x.st_mtime ≤ latest) ∧
        getLatestLoop entries latest roomDir = (latest, roomDir)) ∨
      (∃ pre e post, entries = pre ++ e :: post ∧ hasPrefix e ∧ latest < castInt e.st_mtime ∧
        getLatestLoop entries latest roomDir = (castInt e.st_mtime, e.d_name) ∧
        (∀ x, x ∈ entries → hasPrefix x → castInt x.st_mtime ≤ castInt e.st_mtime) ∧
        (∀ x, x ∈ pre → hasPrefix x → castInt x.st_mtime < castInt e.st_mtime)) := by
  intro entries
  induction entries with
  | nil => intro latest roomDir; left; simp [getLatestLoop]
  | cons d rest ih =>
    intro latest roomDir
    by_cases hm : hasPrefix d ∧ castInt d.st_mtime > latest
    · have hstep : getLatestLoop (d :: rest) latest roomDir =
          getLatestLoop rest (castInt d.st_mtime) d.d_name := by
        have h1 : strstr d.d_name.data DIR_PREFIX.data = true := hm.1
        simp only [getLatestLoop, h1, if_true, hm.2]
      right
      rcases ih (castInt d.st_mtime) d.d_name with ⟨hall, hres⟩ | ⟨pre, e, post, he, hp, hlt, hres, hmax, hpre⟩
      · refine ⟨[], d, rest, rfl, hm.1, hm.2, by rw [hstep, hres], ?_, ?_⟩
        · intro x hx hpx
          rcases List.mem_cons.1 hx with e1 | e1
          · subst e1; exact le_refl _
          · exact hall x e1 hpx
        · intro x hx; simp at hx
      · refine ⟨d :: pre, e, post, by rw [he]; rfl, hp, by omega, by rw [hstep, hres], ?_, ?_⟩
        · intro x hx hpx
          rcases List.mem_cons.1 hx with e1 | e1
          · subst e1; omega
          · exact hmax x e1 hpx
        · intro x hx hpx
          rcases List.mem_cons.1 hx with e1 | e1
          · subst e1; exact hlt
          · exact hpre x e1 hpx
    · have hstep : getLatestLoop (d :: rest) latest roomDir =
          getLatestLoop rest latest roomDir := by
        simp only [getLatestLoop]
        by_cases h1 : strstr d.d_name.data DIR_PREFIX.data = true
        · have h2 : ¬ castInt d.st_mtime > latest := fun h => hm ⟨h1, h⟩
          simp only [h1, if_true, h2, if_false]
        · simp only [h1, if_false]
          rfl
      have hd : hasPrefix d → castInt d.st_mtime ≤ latest := by
        intro hp
        by_contra hc
        exact hm ⟨hp, by omega⟩
      rcases ih latest roomDir with ⟨hall, hres⟩ | ⟨pre, e, post, he, hp, hlt, hres, hmax, hpre⟩
      · left
        refine ⟨?_, by rw [hstep, hres]⟩
        intro x hx hpx
        rcases List.mem_cons.1 hx with e1 | e1
        · subst e1; exact hd hpx
        · exact hall x e1 hpx
      · right
        refine ⟨d :: pre, e, post, by rw [he]; rfl, hp, hlt, by rw [hstep, hres], ?_, ?_⟩
        · intro x hx hpx
          rcases List.mem_cons.1 hx with e1 | e1
          · subst e1; have := hd hpx; omega
          · exact hmax x e1 hpx
        · intro x hx hpx
          rcases List.mem_cons.1 hx with e1 | e1
          · subst e1; have := hd hpx; omega
          · exact hpre x e1 hpx

/-- Claim C10, counterexample. Two entries with the prefix and the same modification time:
the entry seen last has the maximum time and nothing follows it, yet `getLatestRoomDir`
selects the entry seen first. -/
theorem getLatestRoomDir_tie_not_last :
    getLatestRoomDir tiedEntries = "depreyj.rooms.4100" ∧
    ¬ SelectsLastSeenLatest tiedEntries := by
  refine ⟨by decide, ?_⟩
  intro h
  have := h [{ d_name := "depreyj.rooms.4100", st_mtime := 1700000000 }]
    { d_name := "depreyj.rooms.4200", st_mtime := 1700000000 } [] rfl (by decide)
    (by
      intro x hx _
      simp only [tiedEntries, List.mem_cons, List.mem_singleton, List.not_mem_nil,
        or_false] at hx
      rcases hx with e | e <;> subst e <;> exact le_refl _)
    (by intro x hx; simp at hx)
  revert this
  decide

/-- Claim C10, amended. When some entry with the prefix has a positive modification time (as
converted to `int`), `getLatestRoomDir` selects an entry with the prefix whose time is the
maximum among the entries with the prefix, and every entry with the prefix seen before it has
a smaller time: among several entries with the maximum time, the one seen first is
selected. -/
theorem getLatestRoomDir_first_latest (entries : List DirEntry)
    (h : ∃ x, x ∈ entries ∧ hasPrefix x ∧ 0 < castInt x.st_mtime) :
    ∃ pre e post, entries = pre ++ e :: post ∧ hasPrefix e ∧
      getLatestRoomDir entries = e.d_name ∧
      (∀ x, x ∈ entries → hasPrefix x → castInt x.st_mtime ≤ castInt e.st_mtime) ∧
      (∀ x, x ∈ pre → hasPrefix x → castInt x.st_mtime < castInt e.st_mtime) := by
  unfold getLatestRoomDir
  rcases getLatestLoop_spec entries 0 "" with ⟨hall, _⟩ | ⟨pre, e, post, he, hp, _, hres, hmax, hpre⟩
  · obtain ⟨x, hx, hpx, hpos⟩ := h
    have := hall x hx hpx
    omega
  · exact ⟨pre, e, post, he, hp, by rw [hres], hmax, hpre⟩

/-! ## Reading a record back: the words of a record -/

theorem scanWords_word (w : List Char) (hw : ∀ c, c ∈ w → isspace c = false) :
    ∀ (rest cur : List Char), scanWords (w ++ rest) cur = scanWords rest (cur ++ w) := by
  induction w with
  | nil => intro rest cur; simp
  | cons c w ih =>
    intro rest cur
    have hc : isspace c = false := hw c (List.mem_cons_self _ _)
    have := ih (fun d hd => hw d (List.mem_cons_of_mem _ hd)) rest (cur ++ [c])
    rw [List.cons_append]
    simp only [scanWords, hc, Bool.false_eq_true, if_false]
    rw [this]
    simp

theorem scanWords_sep (s : String) (hs : IsWord s) (sep : Char) (hsep : isspace sep = true)
    (rest : List Char) :
    scanWords (s.data ++ sep :: rest) [] = s :: scanWords rest [] := by
  rw [scanWords_word s.data hs.2]
  simp only [List.nil_append, scanWords, hsep, if_true, hs.1, if_false]

theorem scanWords_line (a b c : String) (ha : IsWord a) (hb : IsWord b) (hc : IsWord c)
    (rest : String) :
    scanWords (a ++ " " ++ b ++ " " ++ c ++ "\n" ++ rest).data [] =
      a :: b :: c :: scanWords rest.data [] := by
  have e : (a ++ " " ++ b ++ " " ++ c ++ "\n" ++ rest).data =
      a.data ++ ' ' :: (b.data ++ ' ' :: (c.data ++ '\n' :: rest.data)) := by
    simp [String.data_append]
  rw [e, scanWords_sep a ha ' ' (by decide), scanWords_sep b hb ' ' (by decide),
    scanWords_sep c hc '\n' (by decide)]

theorem isWord_rooms : ∀ s, s ∈ rooms → IsWord s := by
  unfold IsWord
  decide

theorem isWord_roleName (t : roomType) : IsWord (roleName t) := by
  unfold IsWord
  cases t <;> decide

theorem isWord_numeral : ∀ n, n < 8 → IsWord (toString n ++ ":") := by
  unfold IsWord
  decide

theorem isWord_ROOM : IsWord "ROOM" := by unfold IsWord; decide
theorem isWord_NAME : IsWord "NAME:" := by unfold IsWord; decide
theorem isWord_TYPE : IsWord "TYPE:" := by unfold IsWord; decide
theorem isWord_CONNECTION : IsWord "CONNECTION" := by unfold IsWord; decide

theorem scanWords_unlines_connections (roomList : List Room)
    (hn : ∀ j, j < NUM_ROOMS → IsWord (nameAt roomList j)) :
    ∀ (l : List (Nat × Nat)) (rest : String),
      (∀ p, p ∈ l → p.1 < 8 ∧ p.2 < NUM_ROOMS) →
      scanWords (unlines (l.map (connectionLine roomList)) ++ rest).data [] =
        (l.map (fun p => ["CONNECTION", toString p.1 ++ ":", nameAt roomList p.2])).flatten
          ++ scanWords rest.data [] := by
  intro l
  induction l with
  | nil => intro rest _; simp [unlines]
  | cons p l ih =>
    intro rest hl
    have hp := hl p (List.mem_cons_self _ _)
    have e : unlines ((p :: l).map (connectionLine roomList)) ++ rest =
        "CONNECTION" ++ " " ++ (toString p.1 ++ ":") ++ " " ++ nameAt roomList p.2 ++ "\n" ++
          (unlines (l.map (connectionLine roomList)) ++ rest) := by
      simp only [List.map_cons, unlines, connectionLine, String.append_assoc]
      rfl
    rw [e, scanWords_line _ _ _ isWord_CONNECTION (isWord_numeral p.1 hp.1) (hn p.2 hp.2),
      ih rest (fun q hq => hl q (List.mem_cons_of_mem _ hq))]
    simp

theorem connected_lt (roomList : List Room) (i j : Nat) (h : j ∈ connected roomList i) :
    j < NUM_ROOMS ∧ connAt roomList i j = 1 := by
  unfold connected at h
  rw [List.mem_filter, List.mem_range] at h
  exact ⟨h.1, by simpa using h.2⟩

theorem mem_connected (roomList : List Room) (i j : Nat) (hj : j < NUM_ROOMS)
    (h : connAt roomList i j = 1) : j ∈ connected roomList i := by
  unfold connected
  rw [List.mem_filter, List.mem_range]
  exact ⟨hj, by simpa using h⟩

theorem length_connected_le (roomList : List Room) (i : Nat) :
    (connected roomList i).length ≤ NUM_ROOMS := by
  unfold connected
  have := List.length_filter_le (fun j => decide (connAt roomList i j = 1))
    (List.range NUM_ROOMS)
  simpa using this

theorem enumFrom_connected_bound (roomList : List Room) (i : Nat) (p : Nat × Nat)
    (h : p ∈ (connected roomList i).enumFrom 1) : p.1 < 8 ∧ p.2 < NUM_ROOMS := by
  have h1 := List.fst_lt_add_of_mem_enumFrom h
  have h2 := (connected_lt roomList i p.2 (List.snd_mem_of_mem_enumFrom h)).1
  have h3 := length_connected_le roomList i
  unfold NUM_ROOMS at h3
  exact ⟨by omega, h2⟩

/-- The words that successive `%s` conversions read from the record of room `i`. -/
theorem scanWords_record (roomList : List Room)
    (hn : ∀ j, j < NUM_ROOMS → IsWord (nameAt roomList j)) (i : Nat) (hi : i < NUM_ROOMS) :
    scanWords (unlines (recordLines roomList i)).data [] = recordWords roomList i := by
  have e : unlines (recordLines roomList i) =
      "ROOM" ++ " " ++ "NAME:" ++ " " ++ nameAt roomList i ++ "\n" ++
        (unlines (((connected roomList i).enumFrom 1).map (connectionLine roomList)) ++
          ("ROOM" ++ " " ++ "TYPE:" ++ " " ++ roleName (typeAt roomList i) ++ "\n" ++ "")) := by
    unfold recordLines
    apply String.ext
    simp [unlines_append, unlines, String.data_append]
  rw [e, scanWords_line _ _ _ isWord_ROOM isWord_NAME (hn i hi),
    scanWords_unlines_connections roomList hn _ _
      (fun p hp => enumFrom_connected_bound roomList i p hp),
    scanWords_line _ _ _ isWord_ROOM isWord_TYPE (isWord_roleName _)]
  unfold recordWords
  simp [scanWords]

/-! ## Reading a record back: the `fscanf` loop -/

theorem length_markConnections (visited : List String) (field3 : String) :
    ∀ (n j : Nat) (connections : List Int),
      (markConnections visited field3 n j connections).length = connections.length := by
  intro n
  induction n with
  | zero => intro j c; rfl
  | succ n ih =>
    intro j c
    simp only [markConnections]
    split_ifs
    · rw [ih]; simp
    · rw [ih]

theorem getD_markConnections (visited : List String) (field3 : String) :
    ∀ (n j : Nat) (connections : List Int), j + n ≤ connections.length → ∀ k,
      (markConnections visited field3 n j connections).getD k 0 =
        if j ≤ k ∧ k < j + n ∧ field3 = visited.getD k "" then 1
        else connections.getD k 0 := by
  intro n
  induction n with
  | zero =>
    intro j c _ k
    have : ¬ (j ≤ k ∧ k < j + 0 ∧ field3 = visited.getD k "") := by omega
    simp only [markConnections, this, if_false]
  | succ n ih =>
    intro j c hle k
    simp only [markConnections]
    by_cases hf : field3 = visited.getD j ""
    · rw [if_pos hf, ih (j + 1) _ (by simp; omega) k]
      by_cases hk : k = j
      · subst hk
        have h1 : ¬ (k + 1 ≤ k ∧ k < k + 1 + n ∧ field3 = visited.getD k "") := by omega
        have h2 : k ≤ k ∧ k < k + (n + 1) ∧ field3 = visited.getD k "" :=
          ⟨le_refl _, by omega, hf⟩
        rw [if_neg h1, if_pos h2]
        simp only [List.getD_eq_getElem?_getD, List.getElem?_set]
        have : k < c.length := by omega
        simp [this]
      · have hkc : ¬ j = k := fun e => hk e.symm
        have e1 : (c.set j 1).getD k 0 = c.getD k 0 := by
          simp only [List.getD_eq_getElem?_getD, List.getElem?_set, hkc, if_false]
        rw [e1]
        by_cases hc : j + 1 ≤ k ∧ k < j + 1 + n ∧ field3 = visited.getD k ""
        · have : j ≤ k ∧ k < j + (n + 1) ∧ field3 = visited.getD k "" :=
            ⟨by omega, by omega, hc.2.2⟩
          rw [if_pos hc, if_pos this]
        · have : ¬ (j ≤ k ∧ k < j + (n + 1) ∧ field3 = visited.getD k "") := by
            intro h
            exact hc ⟨by omega, by omega, h.2.2⟩
          rw [if_neg hc, if_neg this]
    · rw [if_neg hf, ih (j + 1) _ (by omega) k]
      by_cases hc : j + 1 ≤ k ∧ k < j + 1 + n ∧ field3 = visited.getD k ""
      · have : j ≤ k ∧ k < j + (n + 1) ∧ field3 = visited.getD k "" :=
          ⟨by omega, by omega, hc.2.2⟩
        rw [if_pos hc, if_pos this]
      · have : ¬ (j ≤ k ∧ k < j + (n + 1) ∧ field3 = visited.getD k "") := by
          intro h
          by_cases hk : k = j
          · subst hk; exact hf h.2.2
          · exact hc ⟨by omega, by omega, h.2.2⟩
        rw [if_neg hc, if_neg this]

theorem recordLine_name (visited : List String) (c : String) (room : Room) :
    recordLine visited { field1 := "ROOM", field2 := "NAME:", field3 := c } room = room := by
  have h1 : strncmpEq "NAME:" "NAME" 4 = true := by decide
  simp [recordLine, h1]

theorem recordLine_type (visited : List String) (t : roomType) (room : Room) :
    recordLine visited { field1 := "ROOM", field2 := "TYPE:", field3 := roleName t } room =
      { room with type := t } := by
  have h1 : strncmpEq "TYPE:" "NAME" 4 = false := by decide
  have h2 : strncmpEq "TYPE:" "TYPE" 4 = true := by decide
  have h3 : strncmpEq "START_ROOM" "START_ROOM" 10 = true := by decide
  have h4 : strncmpEq "MID_ROOM" "START_ROOM" 10 = false := by decide
  have h5 : strncmpEq "MID_ROOM" "MID_ROOM" 8 = true := by decide
  have h6 : strncmpEq "END_ROOM" "START_ROOM" 10 = false := by decide
  have h7 : strncmpEq "END_ROOM" "MID_ROOM" 8 = false := by decide
  have h8 : strncmpEq "END_ROOM" "END_ROOM" 8 = true := by decide
  cases t <;> simp [recordLine, roleName, h1, h2, h3, h4, h5, h6, h7, h8]

theorem numeral_not_marker :
    ∀ n, n < 8 → strncmpEq (toString n ++ ":") "NAME" 4 = false ∧
      strncmpEq (toString n ++ ":") "TYPE" 4 = false := by
  decide

theorem recordLine_connection (visited : List String) (n : Nat) (hn : n < 8) (c : String)
    (room : Room) :
    recordLine visited { field1 := "CONNECTION", field2 := toString n ++ ":", field3 := c }
      room =
      { room with
        connections := markConnections visited c NUM_ROOMS 0 room.connections } := by
  have h1 := (numeral_not_marker n hn).1
  have h2 := (numeral_not_marker n hn).2
  have h3 : strncmpEq "CONNECTION" "CONNECTION" 10 = true := by decide
  simp [recordLine, h1, h2, h3]

theorem scanLoop_three (visited : List String) (a b c : String) (rest : List String)
    (f : Fields) (room : Room) :
    scanLoop visited (a :: b :: c :: rest) f room =
      scanLoop visited rest { field1 := a, field2 := b, field3 := c }
        (recordLine visited { field1 := a, field2 := b, field3 := c } room) := by
  simp only [scanLoop]

/-- The connections after the CONNECTION lines `l` of a record have been scanned. -/
theorem scanLoop_connections (roomList : List Room) (visited : List String) :
    ∀ (l : List (Nat × Nat)) (rest : List String) (f : Fields) (room : Room),
      (∀ p, p ∈ l → p.1 < 8) →
      ∃ f1, scanLoop visited
          ((l.map (fun p => ["CONNECTION", toString p.1 ++ ":", nameAt roomList p.2])).flatten
            ++ rest) f room =
        scanLoop visited rest f1
          { room with
            connections := l.foldl
              (fun c p => markConnections visited (nameAt roomList p.2) NUM_ROOMS 0 c)
              room.connections } := by
  intro l
  induction l with
  | nil => intro rest f room _; exact ⟨f, by simp⟩
  | cons p l ih =>
    intro rest f room hl
    obtain ⟨f1, h1⟩ := ih rest
      { field1 := "CONNECTION", field2 := toString p.1 ++ ":", field3 := nameAt roomList p.2 }
      { room with
        connections := markConnections visited (nameAt roomList p.2) NUM_ROOMS 0
          room.connections }
      (fun q hq => hl q (List.mem_cons_of_mem _ hq))
    refine ⟨f1, ?_⟩
    simp only [List.map_cons, List.flatten_cons, List.cons_append, List.nil_append,
      scanLoop, List.foldl_cons]
    rw [recordLine_connection visited p.1 (hl p (List.mem_cons_self _ _))]
    exact h1

theorem foldl_markConnections (roomList : List Room) (visited : List String) :
    ∀ (l : List (Nat × Nat)) (connections : List Int), connections.length = NUM_ROOMS →
      (l.foldl (fun c p => markConnections visited (nameAt roomList p.2) NUM_ROOMS 0 c)
          connections).length = NUM_ROOMS ∧
      ∀ k, (l.foldl (fun c p => markConnections visited (nameAt roomList p.2) NUM_ROOMS 0 c)
          connections).getD k 0 =
        if k < NUM_ROOMS ∧ ∃ p, p ∈ l ∧ nameAt roomList p.2 = visited.getD k "" then 1
        else connections.getD k 0 := by
  intro l
  induction l with
  | nil => intro c hc; simp [hc]
  | cons p l ih =>
    intro c hc
    have hlen : (markConnections visited (nameAt roomList p.2) NUM_ROOMS 0 c).length
        = NUM_ROOMS := by rw [length_markConnections]; exact hc
    obtain ⟨h1, h2⟩ := ih _ hlen
    simp only [List.foldl_cons]
    refine ⟨h1, ?_⟩
    intro k
    rw [h2 k, getD_markConnections visited _ NUM_ROOMS 0 c (by omega) k]
    by_cases hk : k < NUM_ROOMS
    · by_cases hp : nameAt roomList p.2 = visited.getD k ""
      · have a1 : k < NUM_ROOMS ∧ ∃ q, q ∈ p :: l ∧ nameAt roomList q.2 = visited.getD k "" :=
          ⟨hk, p, List.mem_cons_self _ _, hp⟩
        have a2 : 0 ≤ k ∧ k < 0 + NUM_ROOMS ∧ nameAt roomList p.2 = visited.getD k "" :=
          ⟨by omega, by omega, hp⟩
        rw [if_pos a1, if_pos a2]
        split_ifs <;> rfl
      · have a2 : ¬ (0 ≤ k ∧ k < 0 + NUM_ROOMS ∧ nameAt roomList p.2 = visited.getD k "") :=
          fun h => hp h.2.2
        rw [if_neg a2]
        by_cases hq : ∃ q, q ∈ l ∧ nameAt roomList q.2 = visited.getD k ""
        · obtain ⟨q, hq1, hq2⟩ := hq
          rw [if_pos ⟨hk, q, hq1, hq2⟩, if_pos ⟨hk, q, List.mem_cons_of_mem _ hq1, hq2⟩]
        · have a3 : ¬ (k < NUM_ROOMS ∧ ∃ q, q ∈ l ∧ nameAt roomList q.2 = visited.getD k "") :=
            fun h => hq h.2
          have a4 : ¬ (k < NUM_ROOMS ∧
              ∃ q, q ∈ p :: l ∧ nameAt roomList q.2 = visited.getD k "") := by
            rintro ⟨_, q, hq1, hq2⟩
            rcases List.mem_cons.1 hq1 with e | e
            · subst e; exact hp hq2
            · exact hq ⟨q, e, hq2⟩
          rw [if_neg a3, if_neg a4]
    · have a1 : ¬ (k < NUM_ROOMS ∧ ∃ q, q ∈ l ∧ nameAt roomList q.2 = visited.getD k "") :=
        fun h => hk h.1
      have a2 : ¬ (0 ≤ k ∧ k < 0 + NUM_ROOMS ∧ nameAt roomList p.2 = visited.getD k "") :=
        fun h => hk (by omega)
      have a3 : ¬ (k < NUM_ROOMS ∧
          ∃ q, q ∈ p :: l ∧ nameAt roomList q.2 = visited.getD k "") := fun h => hk h.1
      rw [if_neg a1, if_neg a2, if_neg a3]

/-- What the `fscanf` loop makes of the record of room `i` of `roomList`, read into a room
whose connections are cleared: the name is kept, the type is the type of room `i`, and slot
`k` is 1 exactly when `visited[k]` is the name of a room connected to `i`. -/
theorem scanLoop_record (roomList : List Room) (visited : List String) (i : Nat)
    (f : Fields) (room0 : Room) (h0 : room0.connections = List.replicate NUM_ROOMS 0) :
    (scanLoop visited (recordWords roomList i) f room0).2.name = room0.name ∧
    (scanLoop visited (recordWords roomList i) f room0).2.type = typeAt roomList i ∧
    (scanLoop visited (recordWords roomList i) f room0).2.connections.length = NUM_ROOMS ∧
    ∀ k, (scanLoop visited (recordWords roomList i) f room0).2.connections.getD k 0 =
      if k < NUM_ROOMS ∧ ∃ j, j ∈ connected roomList i ∧ nameAt roomList j = visited.getD k ""
      then 1 else 0 := by
  obtain ⟨f1, h1⟩ := scanLoop_connections roomList visited ((connected roomList i).enumFrom 1)
    ["ROOM", "TYPE:", roleName (typeAt roomList i)]
    { field1 := "ROOM", field2 := "NAME:", field3 := nameAt roomList i } room0
    (fun p hp => (enumFrom_connected_bound roomList i p hp).1)
  have e : scanLoop visited (recordWords roomList i) f room0 =
      ({ field1 := "ROOM", field2 := "TYPE:", field3 := roleName (typeAt roomList i) },
       { room0 with
          type := typeAt roomList i,
          connections := ((connected roomList i).enumFrom 1).foldl
            (fun c p => markConnections visited (nameAt roomList p.2) NUM_ROOMS 0 c)
            room0.connections }) := by
    have ew : recordWords roomList i = "ROOM" :: "NAME:" :: nameAt roomList i ::
        ((((connected roomList i).enumFrom 1).map
          (fun p => ["CONNECTION", toString p.1 ++ ":", nameAt roomList p.2])).flatten ++
          ["ROOM", "TYPE:", roleName (typeAt roomList i)]) := by
      unfold recordWords
      simp
    rw [ew, scanLoop_three, recordLine_name, h1, scanLoop_three, recordLine_type]
    rfl
  obtain ⟨h2, h3⟩ := foldl_markConnections roomList visited ((connected roomList i).enumFrom 1)
    room0.connections (by rw [h0]; simp)
  rw [e]
  refine ⟨rfl, rfl, h2, ?_⟩
  intro k
  simp only
  rw [h3 k]
  have hz : room0.connections.getD k 0 = 0 := by
    rw [h0]
    simp only [List.getD_eq_getElem?_getD, List.getElem?_replicate]
    split_ifs <;> rfl
  rw [hz]
  have hiff : (∃ p, p ∈ (connected roomList i).enumFrom 1 ∧
        nameAt roomList p.2 = visited.getD k "") ↔
      (∃ j, j ∈ connected roomList i ∧ nameAt roomList j = visited.getD k "") := by
    constructor
    · rintro ⟨p, hp, e⟩
      exact ⟨p.2, List.snd_mem_of_mem_enumFrom hp, e⟩
    · rintro ⟨j, hj, e⟩
      have : j ∈ ((connected roomList i).enumFrom 1).map Prod.snd := by
        rw [List.enumFrom_map_snd]; exact hj
      obtain ⟨p, hp, e2⟩ := List.mem_map.1 this
      exact ⟨p, hp, by rw [e2]; exact e⟩
  simp only [hiff]

theorem recordLine_keeps_name (visited : List String) (f : Fields) (room : Room) :
    (recordLine visited f room).name = room.name := by
  unfold recordLine
  split_ifs <;> rfl

theorem scanLoop_keeps_name (visited : List String) :
    ∀ (n : Nat) (words : List String) (f : Fields) (room : Room), words.length ≤ n →
      (scanLoop visited words f room).2.name = room.name := by
  intro n
  induction n with
  | zero =>
    intro words f room h
    have : words = [] := List.length_eq_zero.1 (by omega)
    subst this
    rfl
  | succ n ih =>
    intro words f room h
    match words, h with
    | [], _ => rfl
    | [a], _ =>
      simp only [scanLoop]
      exact recordLine_keeps_name visited _ room
    | [a, b], _ =>
      simp only [scanLoop]
      exact recordLine_keeps_name visited _ room
    | a :: b :: c :: rest, h =>
      rw [scanLoop_three, ih rest _ _ (by simp only [List.length_cons] at h; omega)]
      exact recordLine_keeps_name visited _ room

/-- The loop over the files leaves the member `name` of every room as it was, whatever the
files hold. -/
theorem readFiles_keeps_name (visited : List String) :
    ∀ (files : List (String × String)) (i : Nat) (f : Fields) (roomList : List Room) (k : Nat),
      ((readFiles visited files i f roomList).getD k default).name =
        (roomList.getD k default).name := by
  intro files
  induction files with
  | nil => intro i f roomList k; rfl
  | cons file0 rest ih =>
    intro i f roomList k
    simp only [readFiles]
    rw [ih]
    by_cases hk : k = i
    · subst hk
      by_cases hl : k < roomList.length
      · have eg : ∀ r : Room, (roomList.set k r).getD k default = r := by
          intro r
          simp [List.getElem?_set, hl]
        rw [eg, scanLoop_keeps_name visited _ _ _ _ (le_refl _)]
      · have eg : ∀ r : Room, (roomList.set k r).getD k default = roomList.getD k default := by
          intro r
          rw [List.getD_eq_default _ _ (by rw [List.length_set]; omega),
            List.getD_eq_default _ _ (by omega)]
        rw [eg]
    · have hk2 : ¬ i = k := fun e => hk e.symm
      have eg : ∀ r : Room, (roomList.set i r).getD k default = roomList.getD k default := by
        intro r
        simp [List.getElem?_set, hk2]
      rw [eg]

/-- The function `readRooms` returns on every directory of at most `NUM_ROOMS` files, and the
rooms it returns have the member `name` that they had in the room list it received: it
attaches no name to a room. -/
theorem readRooms_keeps_name (roomList0 : List Room) (visited0 : List String)
    (fields0 : Fields) (files : Directory) (roomList1 : List Room) (visited : List String)
    (h : readRooms roomList0 visited0 fields0 files = some (roomList1, visited)) :
    ∀ k, nameAt roomList1 k = nameAt roomList0 k := by
  unfold readRooms at h
  by_cases hl : files.length ≤ NUM_ROOMS
  · rw [if_pos hl] at h
    simp only [Option.some.injEq, Prod.mk.injEq] at h
    obtain ⟨e1, _⟩ := h
    subst e1
    intro k
    exact readFiles_keeps_name _ files 0 fields0 roomList0 k
  · rw [if_neg hl] at h
    simp at h

theorem readFiles_spec (orig : List Room)
    (hn : ∀ j, j < NUM_ROOMS → IsWord (nameAt orig j)) (visited : List String) :
    ∀ (files : List (String × String)) (i : Nat) (f : Fields) (roomList : List Room),
      roomList.length = NUM_ROOMS → i + files.length ≤ NUM_ROOMS →
      (∀ file, file ∈ files → ∃ o, o < NUM_ROOMS ∧ file = roomFile orig o) →
      (readFiles visited files i f roomList).length = NUM_ROOMS ∧
      (∀ k, k < i → (readFiles visited files i f roomList).getD k default =
        roomList.getD k default) ∧
      ∀ m file, files[m]? = some file → ∃ o, o < NUM_ROOMS ∧ file = roomFile orig o ∧
        ReadBack orig visited ((readFiles visited files i f roomList).getD (i + m) default)
          o := by
  intro files
  induction files with
  | nil =>
    intro i f roomList hl _ _
    refine ⟨hl, fun k _ => rfl, ?_⟩
    intro m file h
    simp at h
  | cons file0 rest ih =>
    intro i f roomList hl hle hfiles
    have hle2 : i + rest.length + 1 ≤ NUM_ROOMS := by simpa [Nat.add_assoc] using hle
    obtain ⟨o, ho, e0⟩ := hfiles file0 (List.mem_cons_self _ _)
    have hw : scanWords file0.2.data [] = recordWords orig o := by
      rw [e0]
      exact scanWords_record orig hn o ho
    have hrec := scanLoop_record orig visited o f
      (Room.mk (roomList.getD i default).name (roomList.getD i default).type
        (List.replicate NUM_ROOMS 0)) rfl
    have step : readFiles visited (file0 :: rest) i f roomList =
        readFiles visited rest (i + 1)
          (scanLoop visited (recordWords orig o) f
            (Room.mk (roomList.getD i default).name (roomList.getD i default).type
              (List.replicate NUM_ROOMS 0))).1
          (roomList.set i
            (scanLoop visited (recordWords orig o) f
              (Room.mk (roomList.getD i default).name (roomList.getD i default).type
                (List.replicate NUM_ROOMS 0))).2) := by
      simp only [readFiles]
      rw [hw]
    rw [step]
    generalize scanLoop visited (recordWords orig o) f
      (Room.mk (roomList.getD i default).name (roomList.getD i default).type
        (List.replicate NUM_ROOMS 0)) = r at hrec ⊢
    obtain ⟨h1, h2, h3⟩ := ih (i + 1) r.1 (roomList.set i r.2)
      (by rw [List.length_set]; exact hl) (by omega)
      (fun file hf => hfiles file (List.mem_cons_of_mem _ hf))
    refine ⟨h1, ?_, ?_⟩
    · intro k hk
      rw [h2 k (by omega)]
      have : ¬ i = k := by omega
      simp [List.getElem?_set, this]
    · intro m file hm
      cases m with
      | zero =>
        simp only [List.getElem?_cons_zero, Option.some.injEq] at hm
        subst hm
        refine ⟨o, ho, e0, ?_⟩
        simp only [Nat.add_zero]
        rw [h2 i (by omega)]
        have hi : i < roomList.length := by omega
        have eg : (roomList.set i r.2).getD i default = r.2 := by
          simp [List.getElem?_set, hi]
        rw [eg]
        exact hrec.2
      | succ m =>
        simp only [List.getElem?_cons_succ] at hm
        obtain ⟨o2, ho2, e2, hr⟩ := h3 m file hm
        refine ⟨o2, ho2, e2, ?_⟩
        have : i + (m + 1) = i + 1 + m := by omega
        rw [this]
        exact hr

theorem getD_visited (files : List (String × String)) (visited0 : List String) (k : Nat)
    (file : String × String) (h : files[k]? = some file) :
    (files.map (fun e => e.1) ++ visited0.drop files.length).getD k "" = file.1 := by
  have hk : k < files.length := by
    by_contra hc
    rw [List.getElem?_eq_none (by omega)] at h
    simp at h
  simp only [List.getD_eq_getElem?_getD]
  rw [List.getElem?_append_left (by simpa using hk)]
  simp [h]

/-- The room list that `readRooms` builds from the files of a generated directory, in any
enumeration order. -/
theorem readRooms_generated (orig : List Room)
    (hw : ∀ j, j < NUM_ROOMS → IsWord (nameAt orig j))
    (files : Directory) (hp : files.Perm ((List.range NUM_ROOMS).map (roomFile orig)))
    (roomList0 : List Room) (visited0 : List String) (fields0 : Fields)
    (h0 : roomList0.length = NUM_ROOMS) :
    ∃ roomList1 visited,
      readRooms roomList0 visited0 fields0 files = some (roomList1, visited) ∧
      roomList1.length = NUM_ROOMS ∧
      (∀ i, i < NUM_ROOMS → ∃ k, k < NUM_ROOMS ∧ visited.getD k "" = nameAt orig i) ∧
      (∀ k, k < NUM_ROOMS → ∃ o, o < NUM_ROOMS ∧ visited.getD k "" = nameAt orig o ∧
        ReadBack orig visited (roomList1.getD k default) o) := by
  have hlen : files.length = NUM_ROOMS := by
    rw [hp.length_eq]; simp
  have hfiles : ∀ file, file ∈ files → ∃ o, o < NUM_ROOMS ∧ file = roomFile orig o := by
    intro file hf
    have := hp.mem_iff.1 hf
    obtain ⟨o, ho, e⟩ := List.mem_map.1 this
    exact ⟨o, List.mem_range.1 ho, e.symm⟩
  obtain ⟨h1, _, h3⟩ := readFiles_spec orig hw
    (files.map (fun e => e.1) ++ visited0.drop files.length) files 0 fields0 roomList0 h0
    (by omega) hfiles
  refine ⟨_, _, by unfold readRooms; rw [if_pos (by omega)], h1, ?_, ?_⟩
  · intro i hi
    have hm : roomFile orig i ∈ files :=
      hp.mem_iff.2 (List.mem_map.2 ⟨i, List.mem_range.2 hi, rfl⟩)
    obtain ⟨k, hk⟩ := List.getElem?_of_mem hm
    have hk2 : k < NUM_ROOMS := by
      by_contra hc
      rw [List.getElem?_eq_none (by omega)] at hk
      simp at hk
    exact ⟨k, hk2, by rw [getD_visited files visited0 k _ hk]; rfl⟩
  · intro k hk
    have hk2 : k < files.length := by omega
    obtain ⟨o, ho, e, hr⟩ := h3 k files[k] (List.getElem?_eq_getElem hk2)
    simp only [Nat.zero_add] at hr
    refine ⟨o, ho, ?_, hr⟩
    rw [getD_visited files visited0 k _ (List.getElem?_eq_getElem hk2), e]
    rfl

/-- What does come back from the room files of a generated room list, read by `readRooms` in
any enumeration order: `visited` holds the names of the generated rooms, and the room read
at the position of a name has the type of the generated room of that name and, by names in
`visited`, the same connected rooms.  The member `name` of the rooms read is the one of
`roomList0`. -/
theorem readRooms_types_connections (draws randoms rest draws2 : List Nat)
    (roomList : List Room) (dir files : Directory) (roomList0 : List Room)
    (visited0 : List String) (fields0 : Fields)
    (hr : getRandomList NAME_POOL draws = some (randoms, rest))
    (hg : generateRoomFiles randoms draws2 = some (roomList, dir))
    (hp : files.Perm dir) (h0 : roomList0.length = NUM_ROOMS) :
    ∃ roomList1 visited,
      readRooms roomList0 visited0 fields0 files = some (roomList1, visited) ∧
      roomList1.length = NUM_ROOMS ∧
      (∀ k, nameAt roomList1 k = nameAt roomList0 k) ∧
      (∀ i, i < NUM_ROOMS → ∃ k, k < NUM_ROOMS ∧ visited.getD k "" = nameAt roomList i) ∧
      (∀ k, k < NUM_ROOMS →
        ∃ i, i < NUM_ROOMS ∧ visited.getD k "" = nameAt roomList i ∧
          typeAt roomList1 k = typeAt roomList i ∧
          ∀ k2 j, k2 < NUM_ROOMS → j < NUM_ROOMS →
            visited.getD k2 "" = nameAt roomList j →
            (connAt roomList1 k k2 = 1 ↔ connAt roomList i j = 1)) := by
  obtain ⟨hgen, hdir⟩ := generateRoomFiles_dir draws randoms rest draws2 roomList dir hr hg
  obtain ⟨hpool, hinj⟩ := generateRooms_names_distinct draws randoms rest draws2 roomList hr hgen
  rw [hdir] at hp
  obtain ⟨roomList1, visited, hread, hlen, hall, hback⟩ :=
    readRooms_generated roomList (fun j hj => isWord_rooms _ (hpool j hj)) files hp
      roomList0 visited0 fields0 h0
  refine ⟨roomList1, visited, hread, hlen,
    readRooms_keeps_name roomList0 visited0 fields0 files roomList1 visited hread, hall, ?_⟩
  intro k hk
  obtain ⟨o, ho, e, hb⟩ := hback k hk
  refine ⟨o, ho, e, hb.1, ?_⟩
  intro k2 j hk2 hj hv
  have hc : connAt roomList1 k k2 = (roomList1.getD k default).connections.getD k2 0 := rfl
  rw [hc, hb.2.2 k2, hv]
  constructor
  · intro h
    by_cases hcond : k2 < NUM_ROOMS ∧
        ∃ j2, j2 ∈ connected roomList o ∧ nameAt roomList j2 = nameAt roomList j
    · obtain ⟨_, j2, hj2, e3⟩ := hcond
      have hj2b := connected_lt roomList o j2 hj2
      have := hinj j2 j hj2b.1 hj e3
      subst this
      exact hj2b.2
    · rw [if_neg hcond] at h
      exact absurd h (by decide)
  · intro h
    rw [if_pos ⟨hk2, j, mem_connected roomList o j hj h, rfl⟩]

/-- Claim C5, the code at the failing input. The room files generated from the sample draws
are read back by `readRooms` in the order written.  `visited` holds the names of the
generated rooms and the types and connections come back, but the rooms read carry no name:
their member `name` is the one of the room list that `readRooms` received (here blank), not
the name of the generated room, because line 153 stores through the pointer
`roomList[i].name` that was never initialised. -/
theorem readRooms_names_not_stored :
    ∃ roomList dir roomList1 visited,
      generateRoomFiles sampleRandomList sampleDraws = some (roomList, dir) ∧
      readRooms blankRooms blankVisited default dir = some (roomList1, visited) ∧
      (List.range NUM_ROOMS).map (nameAt roomList) =
        ["field", "castle", "mountain", "forest", "valley", "desert", "lake"] ∧
      visited = ["field", "castle", "mountain", "forest", "valley", "desert", "lake"] ∧
      (List.range NUM_ROOMS).map (nameAt roomList1) =
        (List.range NUM_ROOMS).map (nameAt blankRooms) ∧
      (List.range NUM_ROOMS).map (nameAt roomList1) = ["", "", "", "", "", "", ""] ∧
      nameAt roomList1 0 ≠ nameAt roomList 0 ∧
      (List.range NUM_ROOMS).map (typeAt roomList1) =
        (List.range NUM_ROOMS).map (typeAt roomList) ∧
      (List.range NUM_ROOMS).map (fun k => (List.range NUM_ROOMS).map (connAt roomList1 k)) =
        (List.range NUM_ROOMS).map (fun k => (List.range NUM_ROOMS).map (connAt roomList k)) := by
  refine ⟨_, _, _, _, rfl, rfl, ?_, ?_, ?_, ?_, ?_, ?_, ?_⟩ <;> decide

/-! ## `gameOn` on concrete room sets -/

theorem sampleRooms_generated :
    ∃ roomList dir, generateRoomFiles sampleRandomList sampleDraws = some (roomList, dir) ∧
      readRooms blankRooms blankVisited default dir = some (sampleRooms, sampleVisited) := by
  refine ⟨_, _, rfl, ?_⟩
  decide

/-- Claim C6, the code at the failing input. `readRooms` loads `selfRooms` from
`selfDirectory`.  In the session on it, the line `field` moves from the Start room to itself
and leaves `index = 0`; after that the line `nowhere`, which is no room name, and the line
`time` each find `connections[index] == 1` and are taken as moves: the path grows and the
step count goes up. -/
theorem gameStep_stale_index_moves :
    readRooms blankRooms blankVisited default selfDirectory = some (selfRooms, sampleVisited) ∧
    startSession selfRooms = some { currRoom := 0, index := -1, path := [], pathCount := 0 } ∧
    gameStep selfRooms sampleVisited { currRoom := 0, index := -1, path := [], pathCount := 0 }
      "field" = some { currRoom := 0, index := 0, path := [0], pathCount := 1 } ∧
    "nowhere" ∉ sampleVisited ∧
    gameStep selfRooms sampleVisited { currRoom := 0, index := 0, path := [0], pathCount := 1 }
      "nowhere" = some { currRoom := 0, index := 0, path := [0, 0], pathCount := 2 } ∧
    gameStep selfRooms sampleVisited { currRoom := 0, index := 0, path := [0], pathCount := 1 }
      "time" = some { currRoom := 0, index := 0, path := [0, 0], pathCount := 2 } := by
  decide

/-- Claim C7, the code at the failing input. On the room set `sampleRooms`, loaded from the
room files generated from the sample draws, a session of 14 valid moves ends with the report
of 14 steps; the session of 15 valid moves `fourteenMoves` then `desert` (the End room,
connected to the current room) gives no report: its last move stores into `path[14]`,
outside `int path[14]`. -/
theorem gameOn_fifteen_moves :
    gameOn sampleRooms sampleVisited
      ["castle", "field", "castle", "field", "castle", "field", "castle",
       "field", "castle", "field", "castle", "field", "mountain", "desert"] =
      some (14, ["castle", "field", "castle", "field", "castle", "field", "castle",
        "field", "castle", "field", "castle", "field", "mountain", "desert"]) ∧
    startSession sampleRooms = some { currRoom := 0, index := -1, path := [], pathCount := 0 } ∧
    gameLoop sampleRooms sampleVisited fourteenMoves
      { currRoom := 0, index := -1, path := [], pathCount := 0 } = some sessionAfterFourteen ∧
    sampleVisited.getD 5 "" = "desert" ∧ connAt sampleRooms 0 5 = 1 ∧
    typeAt sampleRooms 5 = roomType.END_ROOM ∧
    gameStep sampleRooms sampleVisited sessionAfterFourteen "desert" = none ∧
    gameOn sampleRooms sampleVisited (fourteenMoves ++ ["desert"]) = none := by
  decide

/-- Claim C8, the code at the failing input. The room names of `sampleRooms` are pairwise
distinct, the state `sessionAfterFourteen` is reached from the Start room, its current room
`field` is connected to `castle`, and the step on the line `castle` is not the move with the
path extended: `pathCount` is 14 and the store `path[14]` is outside `int path[14]`. -/
theorem gameStep_move_at_capacity :
    sampleVisited.Nodup ∧
    gameLoop sampleRooms sampleVisited fourteenMoves
      { currRoom := 0, index := -1, path := [], pathCount := 0 } = some sessionAfterFourteen ∧
    sessionAfterFourteen.currRoom = 0 ∧ sessionAfterFourteen.pathCount = PATH_SIZE ∧
    sampleVisited.getD 1 "" = "castle" ∧ connAt sampleRooms 0 1 = 1 ∧
    gameStep sampleRooms sampleVisited sessionAfterFourteen "castle" = none := by
  decide

/-! ## `gameOn`: one line of input -/

theorem matchRoom_spec (visited : List String) (buffer : String) :
    ∀ (n j : Nat) (index : Int),
      (matchRoom visited buffer n j index = index ∧
        ∀ k, j ≤ k → k < j + n → visited.getD k "" ≠ buffer) ∨
      (∃ k : Nat, j ≤ k ∧ k < j + n ∧ visited.getD k "" = buffer ∧
        matchRoom visited buffer n j index = (k : Int) ∧
        ∀ k2, k < k2 → k2 < j + n → visited.getD k2 "" ≠ buffer) := by
  intro n
  induction n with
  | zero =>
    intro j index
    left
    exact ⟨rfl, fun k h1 h2 => by omega⟩
  | succ n ih =>
    intro j index
    simp only [matchRoom]
    by_cases h : visited.getD j "" = buffer
    · rw [if_pos h]
      right
      rcases ih (j + 1) (j : Int) with ⟨h1, h2⟩ | ⟨k, h1, h2, h3, h4, h5⟩
      · exact ⟨j, le_refl _, by omega, h, h1, fun k2 a b => h2 k2 (by omega) (by omega)⟩
      · exact ⟨k, by omega, by omega, h3, h4, fun k2 a b => h5 k2 a (by omega)⟩
    · rw [if_neg h]
      rcases ih (j + 1) index with ⟨h1, h2⟩ | ⟨k, h1, h2, h3, h4, h5⟩
      · left
        refine ⟨h1, ?_⟩
        intro k a b
        by_cases e : k = j
        · subst e; exact h
        · exact h2 k (by omega) (by omega)
      · right
        exact ⟨k, by omega, by omega, h3, h4, fun k2 a b => h5 k2 a (by omega)⟩

theorem connRead_natCast (roomList : List Room) (i j : Nat) :
    connRead (roomList.getD i default) (j : Int) = connAt roomList i j := by
  unfold connRead connAt
  have : ¬ ((j : Int) = -1) := by omega
  rw [if_neg this]
  simp

/-- A line that is the name of a room connected to the current room is a move, as long as
`path` has room for it: the current room becomes that room, its index is appended to the
path and the step count goes up by one. -/
theorem gameStep_move (roomList : List Room) (visited : List String) (s : Session)
    (buffer : String) (j : Nat)
    (hd : ∀ a b, a < NUM_ROOMS → b < NUM_ROOMS →
      visited.getD a "" = visited.getD b "" → a = b)
    (hj : j < NUM_ROOMS) (hb : visited.getD j "" = buffer)
    (hc : connAt roomList s.currRoom j = 1) (hp : s.pathCount < PATH_SIZE) :
    gameStep roomList visited s buffer =
      some { currRoom := j, index := (j : Int), path := s.path ++ [(j : Int)],
             pathCount := s.pathCount + 1 } := by
  have hm : matchRoom visited buffer NUM_ROOMS 0 s.index = (j : Int) := by
    rcases matchRoom_spec visited buffer NUM_ROOMS 0 s.index with
      ⟨_, h2⟩ | ⟨k, _, h2, h3, h4, _⟩
    · exact absurd hb (h2 j (by omega) (by omega))
    · have : k = j := hd k j (by omega) hj (by rw [h3, hb])
      rw [h4, this]
  unfold gameStep
  simp only [hm]
  rw [connRead_natCast, if_pos hc, if_pos ⟨by omega, hp⟩]
  simp

theorem findStart_spec (roomList : List Room) :
    ∀ (n i k : Nat), findStart roomList n i = some k →
      typeAt roomList k = roomType.START_ROOM := by
  intro n
  induction n with
  | zero => intro i k h; simp [findStart] at h
  | succ n ih =>
    intro i k h
    simp only [findStart] at h
    by_cases e : typeAt roomList i = roomType.START_ROOM
    · rw [if_pos e] at h
      simp only [Option.some.injEq] at h
      subst h
      exact e
    · rw [if_neg e] at h
      exact ih _ _ h

/-- In a room list where no room lists itself, `connections[index]` of the current room is
not 1 between two lines of input, in every reachable state. -/
theorem reachable_index (roomList : List Room) (visited : List String)
    (hself : ∀ k, connAt roomList k k ≠ 1) (s : Session)
    (h : Reachable roomList visited s) :
    connRead (roomList.getD s.currRoom default) s.index ≠ 1 := by
  induction h with
  | start s hs =>
    unfold startSession at hs
    cases hf : findStart roomList NUM_ROOMS 0 with
    | none => rw [hf] at hs; simp at hs
    | some i =>
      rw [hf] at hs
      simp only [Option.some.injEq] at hs
      subst hs
      have ht := findStart_spec roomList NUM_ROOMS 0 i hf
      unfold typeAt at ht
      simp only [connRead, if_true, ht, roomType.toInt]
      decide
  | step s s1 buffer _ _ hstep _ =>
    unfold gameStep at hstep
    by_cases hc : connRead (roomList.getD s.currRoom default)
        (matchRoom visited buffer NUM_ROOMS 0 s.index) = 1
    · rw [if_pos hc] at hstep
      by_cases hb : 0 ≤ matchRoom visited buffer NUM_ROOMS 0 s.index ∧
          s.pathCount < PATH_SIZE
      · rw [if_pos hb] at hstep
        simp only [Option.some.injEq] at hstep
        subst hstep
        simp only
        have e : matchRoom visited buffer NUM_ROOMS 0 s.index =
            ((matchRoom visited buffer NUM_ROOMS 0 s.index).toNat : Int) :=
          (Int.toNat_of_nonneg hb.1).symm
        rw [e, connRead_natCast]
        simp only [Int.toNat_ofNat]
        exact hself _
      · rw [if_neg hb] at hstep
        simp at hstep
    · rw [if_neg hc] at hstep
      simp only [ite_self, Option.some.injEq] at hstep
      subst hstep
      exact hc

/-- In a room list where no room lists itself, a line that is not the name of a room
connected to the current room (no room name at all, the name of a room that is not
connected, or `time`) leaves the current room, the path and the step count as they were, in
every reachable state. -/
theorem gameStep_no_move (roomList : List Room) (visited : List String)
    (hself : ∀ k, connAt roomList k k ≠ 1) (s : Session)
    (h : Reachable roomList visited s) (buffer : String)
    (hb : ∀ j, j < NUM_ROOMS → visited.getD j "" = buffer →
      connAt roomList s.currRoom j ≠ 1) :
    ∃ s1, gameStep roomList visited s buffer = some s1 ∧ s1.currRoom = s.currRoom ∧
      s1.path = s.path ∧ s1.pathCount = s.pathCount := by
  have hinv := reachable_index roomList visited hself s h
  have hc : connRead (roomList.getD s.currRoom default)
      (matchRoom visited buffer NUM_ROOMS 0 s.index) ≠ 1 := by
    rcases matchRoom_spec visited buffer NUM_ROOMS 0 s.index with
      ⟨h1, _⟩ | ⟨k, _, h2, h3, h4, _⟩
    · rw [h1]; exact hinv
    · rw [h4, connRead_natCast]
      exact hb k (by omega) h3
  unfold gameStep
  simp only
  rw [if_neg hc]
  simp only [ite_self]
  exact ⟨_, rfl, rfl, rfl, rfl⟩

/-! ## The theorems at the sample inputs -/

/-- Witness of `generateRooms_symmetric` on the sample draws. -/
theorem generateRooms_symmetric_witness :
    ∃ roomList, generateRooms sampleRandomList sampleDraws = some roomList ∧
      ∀ a b, a < NUM_ROOMS → b < NUM_ROOMS →
        (connAt roomList a b = 1 ↔ connAt roomList b a = 1) :=
  ⟨_, rfl, generateRooms_symmetric sampleRandomList sampleDraws _ rfl⟩

/-- Witness of `generateRooms_roles` on the sample draws. -/
theorem generateRooms_roles_witness :
    ∃ roomList, generateRooms sampleRandomList sampleDraws = some roomList ∧
      RolesAssigned roomList :=
  ⟨_, rfl, (generateRooms_roles sampleRandomList).2 sampleDraws _ rfl⟩

/-- Witness of `getRandomList_distinct` on the sample draws. -/
theorem getRandomList_distinct_witness :
    NAME_POOL ≤ sampleShuffleDraws.length ∧
    (∃ res, getRandomList NAME_POOL sampleShuffleDraws = some res) ∧
    getRandomList NAME_POOL sampleShuffleDraws = some (sampleRandomList, []) ∧
    (sampleRandomList.length = NAME_POOL ∧ sampleRandomList.Nodup ∧
      ∀ x, x ∈ sampleRandomList → x < NAME_POOL) ∧
    ∀ draws2 roomList, generateRooms sampleRandomList draws2 = some roomList →
      (∀ i, i < NUM_ROOMS → nameAt roomList i ∈ rooms) ∧
      (∀ i j, i < NUM_ROOMS → j < NUM_ROOMS →
        nameAt roomList i = nameAt roomList j → i = j) :=
  ⟨by decide, (getRandomList_distinct sampleShuffleDraws).1 (by decide), rfl,
    (getRandomList_distinct sampleShuffleDraws).2 sampleRandomList [] rfl⟩

/-- Witness of `writeRoom_format`: the directory of the sample room list. -/
theorem writeRoom_format_witness :
    ∃ roomList dir, generateRoomFiles sampleRandomList sampleDraws = some (roomList, dir) ∧
      dir = (List.range NUM_ROOMS).map (roomFile roomList) :=
  ⟨_, _, rfl, writeRoom_format.2.2.1 sampleShuffleDraws sampleRandomList [] sampleDraws _ _
    rfl rfl⟩

/-- Witness of `getLatestRoomDir_first_latest` on `sampleEntries`. -/
theorem getLatestRoomDir_first_latest_witness :
    (∃ x, x ∈ sampleEntries ∧ hasPrefix x ∧ 0 < castInt x.st_mtime) ∧
    ∃ pre e post, sampleEntries = pre ++ e :: post ∧ hasPrefix e ∧
      getLatestRoomDir sampleEntries = e.d_name ∧
      (∀ x, x ∈ sampleEntries → hasPrefix x → castInt x.st_mtime ≤ castInt e.st_mtime) ∧
      (∀ x, x ∈ pre → hasPrefix x → castInt x.st_mtime < castInt e.st_mtime) :=
  ⟨⟨{ d_name := "depreyj.rooms.3000", st_mtime := 1600000000 }, by decide, by decide,
      by decide⟩,
    getLatestRoomDir_first_latest sampleEntries
      ⟨{ d_name := "depreyj.rooms.3000", st_mtime := 1600000000 }, by decide, by decide,
        by decide⟩⟩


/-! ## More invariants of the connection loops -/

theorem generateRooms_self_zero (randomList draws : List Nat) (roomList : List Room)
    (h : generateRooms randomList draws = some roomList) :
    ∀ i, connAt roomList i i = 0 := by
  obtain ⟨r, rest, _, hp⟩ := generateRooms_inv
    (fun rl => WellFormed rl ∧ ∀ i, connAt rl i i = 0)
    (fun i rl random hi hr hne hw => by
      refine ⟨wellFormed_link rl i random hw.1, ?_⟩
      intro a
      rw [connAt_link rl i random hw.1 hi hr]
      have h1 : ¬ ((a = random ∧ a = i) ∨ (a = i ∧ a = random)) := by
        rintro (⟨e1, e2⟩ | ⟨e1, e2⟩)
        · exact hne (e1.symm.trans e2)
        · exact hne (e2.symm.trans e1)
      rw [if_neg h1]
      exact hw.2 a)
    randomList draws roomList h
  exact (hp ⟨wellFormed_assignRoles randomList r,
    fun a => connAt_assignRoles randomList r a a⟩).2

/-- Claim C12. On every sequence of draws on which `generateRooms` finishes, no room of the
generated room list is connected to itself: `connections[i]` of room `i` is 0 for every
index `i`. -/
theorem generateRooms_no_self (randomList draws : List Nat) (roomList : List Room)
    (h : generateRooms randomList draws = some roomList) :
    ∀ i, i < NUM_ROOMS → connAt roomList i i = 0 :=
  fun i _ => generateRooms_self_zero randomList draws roomList h i

/-- Witness of `generateRooms_no_self` on the sample draws. -/
theorem generateRooms_no_self_witness :
    ∃ roomList, generateRooms sampleRandomList sampleDraws = some roomList ∧
      ∀ i, i < NUM_ROOMS → connAt roomList i i = 0 :=
  ⟨_, rfl, generateRooms_no_self sampleRandomList sampleDraws _ rfl⟩

/-- Claim C13. The connection loop counts passes, not distinct connections: every finished
loop of a room ends with its counter at `MIN_CONN`, and on the draws `repeatedDraws` the
loop of room 0 ends so (three draws of room 1) while room 0 has fewer than `MIN_CONN`
distinct connected rooms in the final room list. -/
theorem connectLoop_counts_passes :
    (∀ i roomList draws res, connectLoop i MIN_CONN 0 roomList draws = some res →
      res.1 = MIN_CONN) ∧
    (∃ roomList1 rest roomList,
      connectLoop 0 MIN_CONN 0 (assignRoles (initRooms identityRandomList) 2)
        [1, 1, 1, 0, 0, 0, 3, 3, 3, 2, 2, 2, 5, 5, 5, 4, 4, 4, 5, 5, 5] =
        some (MIN_CONN, roomList1, rest) ∧
      repeatedDraws = 2 :: [1, 1, 1, 0, 0, 0, 3, 3, 3, 2, 2, 2, 5, 5, 5, 4, 4, 4, 5, 5, 5] ∧
      generateRooms identityRandomList repeatedDraws = some roomList ∧
      degree roomList 0 < MIN_CONN) := by
  refine ⟨?_, _, _, _, rfl, rfl, rfl, ?_⟩
  · intro i roomList draws res h
    have := connectLoop_counter i MIN_CONN 0 roomList draws res h
    omega
  · decide

/-- Witness of `connectLoop_counts_passes`: the loop of room 0 on three draws of room 1. -/
theorem connectLoop_counts_passes_witness :
    ∃ res, connectLoop 0 MIN_CONN 0 (initRooms identityRandomList) [1, 1, 1] = some res ∧
      res.1 = MIN_CONN :=
  ⟨_, rfl, connectLoop_counts_passes.1 0 (initRooms identityRandomList) [1, 1, 1] _ rfl⟩

/-! ## Lines that the record parser does not recognise -/

/-- Claim C15, the code at the failing input. The loops over `connections[j]` reach `j = 6`
and the connection loop draws `random = 6`, which is not below `MAX_CONN`: on the sample
draws the generator stores `roomList[2].connections[6] = 1`, and `readRooms` stores slot 6 of
the rooms it loads.  At the first prompt of `gameOn` a line that is no room name leaves
`index = -1` for the read `currRoom->connections[index]`. -/
theorem connections_index_outside_bounds :
    6 ∈ loopIndices ∧ ¬ (6 < MAX_CONN) ∧
    drawOther 2 [6] = some (6, []) ∧
    (∃ roomList, generateRooms sampleRandomList sampleDraws = some roomList ∧
      connAt roomList 2 6 = 1) ∧
    (∃ dir roomList, generateRoomFiles sampleRandomList sampleDraws = some (roomList, dir) ∧
      readRooms blankRooms blankVisited default dir = some (sampleRooms, sampleVisited) ∧
      connAt sampleRooms 2 6 = 1) ∧
    startSession sampleRooms = some { currRoom := 0, index := -1, path := [], pathCount := 0 } ∧
    stepIndex sampleVisited { currRoom := 0, index := -1, path := [], pathCount := 0 }
      "nowhere" = -1 ∧
    ¬ (0 ≤ (-1 : Int)) := by
  refine ⟨by decide, by decide, by decide, ⟨_, rfl, by decide⟩, ⟨_, _, rfl, by decide, by decide⟩,
    by decide, by decide, by decide⟩

/-! ## Reaching the End room -/

theorem repeatedRooms_generated :
    generateRooms identityRandomList repeatedDraws = some repeatedRooms ∧
    ∃ dir roomList1,
      generateRoomFiles identityRandomList repeatedDraws = some (repeatedRooms, dir) ∧
      readRooms blankRooms blankVisited default dir = some (roomList1, repeatedVisited) ∧
      (List.range NUM_ROOMS).map (typeAt roomList1) =
        (List.range NUM_ROOMS).map (typeAt repeatedRooms) ∧
      (List.range NUM_ROOMS).map (fun k => (List.range NUM_ROOMS).map (connAt roomList1 k)) =
        (List.range NUM_ROOMS).map
          (fun k => (List.range NUM_ROOMS).map (connAt repeatedRooms k)) := by
  refine ⟨by decide, _, _, rfl, rfl, by decide, by decide⟩

theorem repeatedRooms_neighbours (a : Nat) (ha : a = 0 ∨ a = 1) (k : Nat)
    (h : connAt repeatedRooms a k = 1) : k = 0 ∨ k = 1 := by
  by_cases hk : k < 7
  · rcases ha with e | e <;> subst e <;> interval_cases k <;> revert h <;> decide
  · exfalso
    have hz : connAt repeatedRooms a k = 0 := by
      unfold connAt
      rcases ha with e | e <;> subst e <;>
        exact List.getD_eq_default _ _ (by simp [repeatedRooms]; omega)
    rw [hz] at h
    exact absurd h (by decide)

theorem connects_repeatedRooms (b : Nat) (h : Connects repeatedRooms 0 b) : b = 0 ∨ b = 1 := by
  induction h with
  | refl => left; rfl
  | step b c _ hc ih => exact repeatedRooms_neighbours b ih c hc

theorem gameStep_repeatedRooms (s s1 : Session) (buffer : String)
    (hs : s.currRoom = 0 ∨ s.currRoom = 1)
    (h : gameStep repeatedRooms repeatedVisited s buffer = some s1) :
    s1.currRoom = 0 ∨ s1.currRoom = 1 := by
  unfold gameStep at h
  simp only at h
  by_cases hc : connRead (repeatedRooms.getD s.currRoom default)
      (matchRoom repeatedVisited buffer NUM_ROOMS 0 s.index) = 1
  · rw [if_pos hc] at h
    by_cases hb : 0 ≤ matchRoom repeatedVisited buffer NUM_ROOMS 0 s.index ∧
        s.pathCount < PATH_SIZE
    · rw [if_pos hb] at h
      simp only [Option.some.injEq] at h
      subst h
      simp only
      have e : matchRoom repeatedVisited buffer NUM_ROOMS 0 s.index =
          ((matchRoom repeatedVisited buffer NUM_ROOMS 0 s.index).toNat : Int) :=
        (Int.toNat_of_nonneg hb.1).symm
      rw [e, connRead_natCast] at hc
      exact repeatedRooms_neighbours _ hs _ hc
    · rw [if_neg hb] at h
      simp at h
  · rw [if_neg hc] at h
    simp only [ite_self, Option.some.injEq] at h
    subst h
    exact hs

theorem gameLoop_repeatedRooms :
    ∀ (inputs : List String) (s s1 : Session), (s.currRoom = 0 ∨ s.currRoom = 1) →
      gameLoop repeatedRooms repeatedVisited inputs s = some s1 →
      s1.currRoom = 0 ∨ s1.currRoom = 1 := by
  intro inputs
  induction inputs with
  | nil =>
    intro s s1 hs h
    simp only [gameLoop, Option.some.injEq] at h
    subst h
    exact hs
  | cons b rest ih =>
    intro s s1 hs h
    simp only [gameLoop] at h
    by_cases he : typeAt repeatedRooms s.currRoom = roomType.END_ROOM
    · rw [if_pos he] at h
      simp only [Option.some.injEq] at h
      subst h
      exact hs
    · rw [if_neg he] at h
      cases hg : gameStep repeatedRooms repeatedVisited s b with
      | none => rw [hg] at h; simp at h
      | some s2 =>
        rw [hg] at h
        exact ih s2 s1 (gameStep_repeatedRooms s s2 b hs hg) h

theorem findStart_congr (roomList roomList1 : List Room)
    (ht : ∀ k, typeAt roomList1 k = typeAt roomList k) :
    ∀ (n i : Nat), findStart roomList1 n i = findStart roomList n i := by
  intro n
  induction n with
  | zero => intro i; rfl
  | succ n ih =>
    intro i
    simp only [findStart, ht, ih]

theorem gameStep_congr (roomList roomList1 : List Room) (visited : List String)
    (hr : ∀ k index, connRead (roomList1.getD k default) index =
      connRead (roomList.getD k default) index)
    (s : Session) (buffer : String) :
    gameStep roomList1 visited s buffer = gameStep roomList visited s buffer := by
  simp only [gameStep, hr]

theorem gameLoop_congr (roomList roomList1 : List Room) (visited : List String)
    (ht : ∀ k, typeAt roomList1 k = typeAt roomList k)
    (hr : ∀ k index, connRead (roomList1.getD k default) index =
      connRead (roomList.getD k default) index) :
    ∀ (inputs : List String) (s : Session),
      gameLoop roomList1 visited inputs s = gameLoop roomList visited inputs s := by
  intro inputs
  induction inputs with
  | nil => intro s; rfl
  | cons b rest ih =>
    intro s
    simp only [gameLoop, ht, gameStep_congr roomList roomList1 visited hr, ih]

/-- The session reads the types and the connections of the rooms only: two room lists that
agree on them give the same session on every input, whatever their members `name` hold. -/
theorem gameOn_congr (roomList roomList1 : List Room) (visited : List String)
    (ht : ∀ k, typeAt roomList1 k = typeAt roomList k)
    (hr : ∀ k index, connRead (roomList1.getD k default) index =
      connRead (roomList.getD k default) index)
    (inputs : List String) :
    gameOn roomList1 visited inputs = gameOn roomList visited inputs := by
  simp only [gameOn, startSession, findStart_congr roomList roomList1 ht,
    gameLoop_congr roomList roomList1 visited ht hr, ht]

/-- Claim C16, the code at the failing input. On the draws `repeatedDraws` the generator
finishes with room 0 the Start room and room 3 the End room; the rooms that can be reached
from room 0 by following connections are rooms 0 and 1, so the End room cannot be reached,
and no sequence of input lines makes the session on that room set end. -/
theorem generateRooms_end_unreachable :
    generateRooms identityRandomList repeatedDraws = some repeatedRooms ∧
    typeAt repeatedRooms 0 = roomType.START_ROOM ∧
    typeAt repeatedRooms 3 = roomType.END_ROOM ∧
    ¬ Connects repeatedRooms 0 3 ∧
    (∀ b, Connects repeatedRooms 0 b → typeAt repeatedRooms b ≠ roomType.END_ROOM) ∧
    ∀ inputs, gameOn repeatedRooms repeatedVisited inputs = none := by
  refine ⟨by decide, by decide, by decide, ?_, ?_, ?_⟩
  · intro h
    rcases connects_repeatedRooms 3 h with e | e <;> omega
  · intro b h
    rcases connects_repeatedRooms b h with e | e <;> subst e <;> decide
  · intro inputs
    unfold gameOn
    have hs : startSession repeatedRooms =
        some { currRoom := 0, index := -1, path := [], pathCount := 0 } := by decide
    rw [hs]
    simp only
    cases hg : gameLoop repeatedRooms repeatedVisited inputs
        { currRoom := 0, index := -1, path := [], pathCount := 0 } with
    | none => rfl
    | some s =>
      simp only
      have := gameLoop_repeatedRooms inputs _ s (Or.inl rfl) hg
      have ht : typeAt repeatedRooms s.currRoom ≠ roomType.END_ROOM := by
        rcases this with e | e <;> rw [e] <;> decide
      rw [if_neg ht]

/-! ## The number of connections of a room -/

theorem connectLoop_keeps (i a b : Nat) (hi : i < NUM_ROOMS) (n connects : Nat)
    (roomList : List Room) (draws : List Nat) (res : Nat × List Room × List Nat)
    (h : connectLoop i n connects roomList draws = some res)
    (hw : WellFormed roomList) (hc : connAt roomList a b = 1) :
    WellFormed res.2.1 ∧ connAt res.2.1 a b = 1 :=
  connectLoop_inv (fun rl => WellFormed rl ∧ connAt rl a b = 1) i
    (fun rl random hr _ hp => by
      refine ⟨wellFormed_link rl i random hp.1, ?_⟩
      rw [connAt_link rl i random hp.1 hi hr, hp.2]
      split_ifs <;> rfl)
    n connects roomList draws res h ⟨hw, hc⟩

theorem connectLoop_wellFormed (i : Nat) (n connects : Nat)
    (roomList : List Room) (draws : List Nat) (res : Nat × List Room × List Nat)
    (h : connectLoop i n connects roomList draws = some res)
    (hw : WellFormed roomList) : WellFormed res.2.1 :=
  connectLoop_inv WellFormed i (fun rl random _ _ hp => wellFormed_link rl i random hp)
    n connects roomList draws res h hw

/-- A loop of room `i` that makes at least one pass leaves room `i` with a connection. -/
theorem connectLoop_first (i : Nat) (hi : i < NUM_ROOMS) (n connects : Nat)
    (roomList : List Room) (draws : List Nat) (res : Nat × List Room × List Nat)
    (h : connectLoop i (n + 1) connects roomList draws = some res)
    (hw : WellFormed roomList) : HasNeighbour res.2.1 i := by
  simp only [connectLoop] at h
  cases hd : drawOther i draws with
  | none => rw [hd] at h; simp at h
  | some p =>
    obtain ⟨random, rest⟩ := p
    rw [hd] at h
    simp only at h
    have hr := drawOther_spec i draws random rest hd
    have h1 : connAt (setConn (setConn roomList i random 1) random i 1) i random = 1 := by
      rw [connAt_link roomList i random hw hi hr.1]
      simp
    have := connectLoop_keeps i i random hi n (connects + 1) _ rest res h
      (wellFormed_link roomList i random hw) h1
    exact ⟨random, hr.1, hr.2, this.2⟩

theorem connectRooms_progress :
    ∀ (n i : Nat) (roomList : List Room) (draws : List Nat) (res : List Room × List Nat),
      i + n ≤ NUM_ROOMS → WellFormed roomList →
      connectRooms n i roomList draws = some res →
      (∀ k, k < i → HasNeighbour roomList k) →
      ∀ k, k < i + n → HasNeighbour res.1 k := by
  intro n
  induction n with
  | zero =>
    intro i roomList draws res _ _ h hq k hk
    simp only [connectRooms, Option.some.injEq] at h
    subst h
    exact hq k hk
  | succ n ih =>
    intro i roomList draws res hle hw h hq k hk
    simp only [connectRooms] at h
    cases hc : connectLoop i MIN_CONN 0 roomList draws with
    | none => rw [hc] at h; simp at h
    | some q =>
      obtain ⟨c, roomList1, rest⟩ := q
      rw [hc] at h
      simp only at h
      have hi : i < NUM_ROOMS := by omega
      have hw1 : WellFormed roomList1 :=
        connectLoop_wellFormed i MIN_CONN 0 roomList draws (c, roomList1, rest) hc hw
      have hnew : HasNeighbour roomList1 i :=
        connectLoop_first i hi 2 0 roomList draws (c, roomList1, rest) hc hw
      refine ih (i + 1) roomList1 rest res (by omega) hw1 h ?_ k (by omega)
      intro k2 hk2
      by_cases e : k2 = i
      · rw [e]; exact hnew
      · obtain ⟨j, hj, hne, hcj⟩ := hq k2 (by omega)
        exact ⟨j, hj, hne,
          (connectLoop_keeps i k2 j hi MIN_CONN 0 roomList draws (c, roomList1, rest) hc hw
            hcj).2⟩

theorem generateRooms_hasNeighbour (randomList draws : List Nat) (roomList : List Room)
    (h : generateRooms randomList draws = some roomList) :
    ∀ k, k < NUM_ROOMS → HasNeighbour roomList k := by
  cases draws with
  | nil => simp [generateRooms] at h
  | cons r rest =>
    simp only [generateRooms] at h
    cases hc : connectRooms NUM_ROOMS 0 (assignRoles (initRooms randomList) r) rest with
    | none => rw [hc] at h; simp at h
    | some q =>
      rw [hc] at h
      simp only [Option.some.injEq] at h
      subst h
      intro k hk
      exact connectRooms_progress NUM_ROOMS 0 _ rest q (by omega)
        (wellFormed_assignRoles randomList r) hc (fun k2 hk2 => by omega) k (by omega)

theorem degree_pos_of_hasNeighbour (roomList : List Room) (k : Nat)
    (h : HasNeighbour roomList k) : 1 ≤ degree roomList k := by
  obtain ⟨j, hj, _, hc⟩ := h
  unfold degree
  exact List.length_pos_of_mem (mem_connected roomList k j hj hc)

theorem degree_le_of_no_self (roomList : List Room) (k : Nat) (hk : k < NUM_ROOMS)
    (h : connAt roomList k k ≠ 1) : degree roomList k ≤ NUM_ROOMS - 1 := by
  unfold degree connected
  have hsub : List.Sublist
      ((List.range NUM_ROOMS).filter (fun j => decide (connAt roomList k j = 1)))
      ((List.range NUM_ROOMS).filter (fun j => decide (j ≠ k))) := by
    apply List.monotone_filter_right
    intro a ha
    simp only [decide_eq_true_eq] at ha
    simp only [decide_eq_true_eq]
    intro e
    rw [e] at ha
    exact h ha
  have hlen : ((List.range NUM_ROOMS).filter (fun j => decide (j ≠ k))).length
      = NUM_ROOMS - 1 := by
    unfold NUM_ROOMS at hk ⊢
    interval_cases k <;> decide
  rw [← hlen]
  exact hsub.length_le

theorem generateRoomFiles_rooms (randomList draws : List Nat) (roomList : List Room)
    (dir : Directory) (h : generateRoomFiles randomList draws = some (roomList, dir)) :
    generateRooms randomList draws = some roomList := by
  unfold generateRoomFiles at h
  cases hr : generateRooms randomList draws with
  | none => rw [hr] at h; simp at h
  | some rl =>
    rw [hr] at h
    simp only [Option.some.injEq, Prod.mk.injEq] at h
    rw [h.1]

/-- A room read back from a generated directory lists a connection when the room it was
written from has one. -/
theorem possibleConnections_loaded (orig : List Room) (roomList1 : List Room)
    (visited : List String)
    (hall : ∀ i, i < NUM_ROOMS → ∃ k, k < NUM_ROOMS ∧ visited.getD k "" = nameAt orig i)
    (k o : Nat) (hb : ReadBack orig visited (roomList1.getD k default) o)
    (hn : HasNeighbour orig o) :
    possibleConnections roomList1 visited k ≠ [] := by
  obtain ⟨j, hj, _, hc⟩ := hn
  obtain ⟨k2, hk2, e⟩ := hall j hj
  have h1 : connAt roomList1 k k2 = 1 := by
    have : connAt roomList1 k k2 = (roomList1.getD k default).connections.getD k2 0 := rfl
    rw [this, hb.2.2 k2, if_pos ⟨hk2, j, mem_connected orig o j hj hc, e.symm⟩]
  have hm : visited.getD k2 "" ∈ possibleConnections roomList1 visited k := by
    unfold possibleConnections
    apply List.mem_map.2
    refine ⟨k2, ?_, rfl⟩
    rw [List.mem_filter, List.mem_range]
    exact ⟨hk2, by simpa using h1⟩
  intro hnil
  rw [hnil] at hm
  simp at hm

/-- Claim C17. On every sequence of draws on which `generateRooms` finishes, every room of
the generated room list has at least one connected room and at most `NUM_ROOMS - 1`; and
when the room files are read back by `readRooms`, in any enumeration order, the prompt of
every room lists at least one possible connection. -/
theorem generateRooms_degree_bounds (randomList draws : List Nat) (roomList : List Room)
    (dir : Directory) (h : generateRoomFiles randomList draws = some (roomList, dir)) :
    (∀ i, i < NUM_ROOMS → 1 ≤ degree roomList i ∧ degree roomList i ≤ NUM_ROOMS - 1) ∧
    (∀ shuffleDraws rest, getRandomList NAME_POOL shuffleDraws = some (randomList, rest) →
      ∀ files roomList0 visited0 fields0 roomList1 visited,
        files.Perm dir → roomList0.length = NUM_ROOMS →
        readRooms roomList0 visited0 fields0 files = some (roomList1, visited) →
        ∀ k, k < NUM_ROOMS → possibleConnections roomList1 visited k ≠ []) := by
  have hg := generateRoomFiles_rooms randomList draws roomList dir h
  have hnb := generateRooms_hasNeighbour randomList draws roomList hg
  have hself := generateRooms_self_zero randomList draws roomList hg
  refine ⟨?_, ?_⟩
  · intro i hi
    refine ⟨degree_pos_of_hasNeighbour roomList i (hnb i hi),
      degree_le_of_no_self roomList i hi ?_⟩
    rw [hself i]
    decide
  · intro shuffleDraws rest hr files roomList0 visited0 fields0 roomList1 visited hp h0 hread
      k hk
    obtain ⟨_, hdir⟩ := generateRoomFiles_dir shuffleDraws randomList rest draws roomList dir hr h
    obtain ⟨hpool, _⟩ :=
      generateRooms_names_distinct shuffleDraws randomList rest draws roomList hr hg
    rw [hdir] at hp
    obtain ⟨rl1, vis, hread2, _, hall, hback⟩ :=
      readRooms_generated roomList (fun j hj => isWord_rooms _ (hpool j hj)) files hp
        roomList0 visited0 fields0 h0
    rw [hread] at hread2
    simp only [Option.some.injEq, Prod.mk.injEq] at hread2
    obtain ⟨e1, e2⟩ := hread2
    subst e1
    subst e2
    obtain ⟨o, ho, _, hb⟩ := hback k hk
    exact possibleConnections_loaded roomList roomList1 visited hall k o hb (hnb o ho)

/-- Witness of `generateRooms_degree_bounds`: the sample room files read in reverse order. -/
theorem generateRooms_degree_bounds_witness :
    ∃ roomList dir roomList1 visited,
      generateRoomFiles sampleRandomList sampleDraws = some (roomList, dir) ∧
      getRandomList NAME_POOL sampleShuffleDraws = some (sampleRandomList, []) ∧
      readRooms blankRooms blankVisited default dir.reverse = some (roomList1, visited) ∧
      (∀ i, i < NUM_ROOMS → 1 ≤ degree roomList i ∧ degree roomList i ≤ NUM_ROOMS - 1) ∧
      ∀ k, k < NUM_ROOMS → possibleConnections roomList1 visited k ≠ [] :=
  ⟨_, _, _, _, rfl, rfl, rfl,
    (generateRooms_degree_bounds sampleRandomList sampleDraws _ _ rfl).1,
    (generateRooms_degree_bounds sampleRandomList sampleDraws _ _ rfl).2 sampleShuffleDraws []
      rfl _ blankRooms blankVisited default _ _ (List.reverse_perm _) rfl rfl⟩

/-! ## The recorded path -/

theorem isWalk_append (roomList : List Room) :
    ∀ (path : List Int) (a : Nat) (k : Int), IsWalk roomList a path → 0 ≤ k →
      connAt roomList (pathEnd a path) k.toNat = 1 →
      IsWalk roomList a (path ++ [k]) ∧ pathEnd a (path ++ [k]) = k.toNat := by
  intro path
  induction path with
  | nil =>
    intro a k _ hk hc
    exact ⟨⟨hk, hc, trivial⟩, rfl⟩
  | cons x rest ih =>
    intro a k hw hk hc
    obtain ⟨h1, h2, h3⟩ := hw
    have := ih x.toNat k h3 hk hc
    exact ⟨⟨h1, h2, this.1⟩, this.2⟩

theorem getLast_of_isWalk (roomList : List Room) :
    ∀ (path : List Int) (a : Nat), IsWalk roomList a path → path ≠ [] →
      path.getLast? = some ((pathEnd a path : Nat) : Int) := by
  intro path
  induction path with
  | nil => intro a _ h; exact absurd rfl h
  | cons x rest ih =>
    intro a hw _
    obtain ⟨h1, _, h3⟩ := hw
    cases rest with
    | nil =>
      simp only [List.getLast?_singleton, pathEnd, Option.some.injEq]
      exact (Int.toNat_of_nonneg h1).symm
    | cons y rest2 =>
      have := ih x.toNat h3 (by simp)
      rw [List.getLast?_cons_cons]
      exact this

theorem reachable_walk (roomList : List Room) (visited : List String) (s : Session)
    (h : Reachable roomList visited s) :
    ∃ start, startSession roomList =
        some { currRoom := start, index := -1, path := [], pathCount := 0 } ∧
      typeAt roomList start = roomType.START_ROOM ∧
      s.pathCount = s.path.length ∧ s.pathCount ≤ PATH_SIZE ∧
      IsWalk roomList start s.path ∧ s.currRoom = pathEnd start s.path := by
  induction h with
  | start s hs =>
    unfold startSession at hs
    cases hf : findStart roomList NUM_ROOMS 0 with
    | none => rw [hf] at hs; simp at hs
    | some i =>
      rw [hf] at hs
      simp only [Option.some.injEq] at hs
      subst hs
      refine ⟨i, ?_, findStart_spec roomList NUM_ROOMS 0 i hf, rfl, Nat.zero_le _, trivial,
        rfl⟩
      unfold startSession
      rw [hf]
  | step s s1 buffer _ _ hstep ih =>
    obtain ⟨start, h1, h2, h3, h4, h5, h6⟩ := ih
    unfold gameStep at hstep
    by_cases hc : connRead (roomList.getD s.currRoom default)
        (matchRoom visited buffer NUM_ROOMS 0 s.index) = 1
    · rw [if_pos hc] at hstep
      by_cases hb : 0 ≤ matchRoom visited buffer NUM_ROOMS 0 s.index ∧
          s.pathCount < PATH_SIZE
      · rw [if_pos hb] at hstep
        simp only [Option.some.injEq] at hstep
        subst hstep
        have e : matchRoom visited buffer NUM_ROOMS 0 s.index =
            ((matchRoom visited buffer NUM_ROOMS 0 s.index).toNat : Int) :=
          (Int.toNat_of_nonneg hb.1).symm
        rw [e, connRead_natCast, h6] at hc
        have hw := isWalk_append roomList s.path start _ h5 hb.1 hc
        refine ⟨start, h1, h2, ?_, ?_, hw.1, hw.2.symm⟩
        · simp only [List.length_append, List.length_singleton, h3]
        · have := hb.2
          simp only
          omega
      · rw [if_neg hb] at hstep
        simp at hstep
    · rw [if_neg hc] at hstep
      simp only [ite_self, Option.some.injEq] at hstep
      subst hstep
      exact ⟨start, h1, h2, h3, h4, h5, h6⟩

/-- Claim C18. In every session state that `gameOn` reaches from the Start room (a reachable
state has at most 14 moves recorded), the recorded path is a walk in the room graph: its
first entry is connected to the Start room and every later entry is connected to the entry
before it; the current room is the last entry of the path, or the Start room when the path is
empty.  When the current room is the End room the path is not empty and its last entry is
the End room. -/
theorem reachable_path_is_walk (roomList : List Room) (visited : List String) (s : Session)
    (h : Reachable roomList visited s) :
    ∃ start, startSession roomList =
        some { currRoom := start, index := -1, path := [], pathCount := 0 } ∧
      s.pathCount = s.path.length ∧ s.pathCount ≤ 14 ∧
      IsWalk roomList start s.path ∧
      (s.path = [] → s.currRoom = start) ∧
      (s.path ≠ [] → s.path.getLast? = some (s.currRoom : Int)) ∧
      (typeAt roomList s.currRoom = roomType.END_ROOM →
        s.path ≠ [] ∧ ∃ k : Nat, s.path.getLast? = some (k : Int) ∧
          typeAt roomList k = roomType.END_ROOM) := by
  obtain ⟨start, h1, h2, h3, h4, h5, h6⟩ := reachable_walk roomList visited s h
  have hlast : s.path ≠ [] → s.path.getLast? = some (s.currRoom : Int) := by
    intro hne
    rw [h6]
    exact getLast_of_isWalk roomList s.path start h5 hne
  have hempty : s.path = [] → s.currRoom = start := by
    intro he
    rw [h6, he]
    rfl
  refine ⟨start, h1, h3, h4, h5, hempty, hlast, ?_⟩
  intro hend
  have hne : s.path ≠ [] := by
    intro he
    rw [hempty he, h2] at hend
    exact absurd hend (by decide)
  exact ⟨hne, s.currRoom, hlast hne, hend⟩

/-- Witness of `reachable_path_is_walk`: the state of `sampleRooms` after the move
`castle`. -/
theorem reachable_path_is_walk_witness :
    Reachable sampleRooms sampleVisited
      { currRoom := 1, index := 1, path := [1], pathCount := 1 } ∧
    ∃ start, startSession sampleRooms =
        some { currRoom := start, index := -1, path := [], pathCount := 0 } ∧
      (1 : Nat) = [(1 : Int)].length ∧ (1 : Nat) ≤ 14 ∧
      IsWalk sampleRooms start [1] ∧
      (([1] : List Int) = [] → 1 = start) ∧
      (([1] : List Int) ≠ [] → [(1 : Int)].getLast? = some ((1 : Nat) : Int)) ∧
      (typeAt sampleRooms 1 = roomType.END_ROOM →
        ([1] : List Int) ≠ [] ∧ ∃ k : Nat, [(1 : Int)].getLast? = some (k : Int) ∧
          typeAt sampleRooms k = roomType.END_ROOM) :=
  ⟨Reachable.step { currRoom := 0, index := -1, path := [], pathCount := 0 } _ "castle"
      (Reachable.start _ (by decide)) (by decide) (by decide),
    reachable_path_is_walk sampleRooms sampleVisited
      { currRoom := 1, index := 1, path := [1], pathCount := 1 }
      (Reachable.step { currRoom := 0, index := -1, path := [], pathCount := 0 } _ "castle"
        (Reachable.start _ (by decide)) (by decide) (by decide))⟩

/-! ## Reaching the End room when the minimum of connections is met -/

theorem closedNeighbours_card (roomList : List Room) (s : Nat) (hs : s < NUM_ROOMS)
    (hself : connAt roomList s s ≠ 1) (hd : MIN_CONN ≤ degree roomList s) :
    MIN_CONN + 1 ≤ (s :: connected roomList s).toFinset.card ∧
    (s :: connected roomList s).toFinset ⊆ Finset.range NUM_ROOMS := by
  have hnd : (connected roomList s).Nodup := by
    unfold connected
    exact List.Nodup.filter _ (List.nodup_range NUM_ROOMS)
  have hni : s ∉ connected roomList s := fun h => hself (connected_lt roomList s s h).2
  have hnd2 : (s :: connected roomList s).Nodup := List.nodup_cons.2 ⟨hni, hnd⟩
  refine ⟨?_, ?_⟩
  · rw [List.toFinset_card_of_nodup hnd2]
    unfold degree at hd
    simp only [List.length_cons]
    omega
  · intro x hx
    rw [List.mem_toFinset] at hx
    rw [Finset.mem_range]
    rcases List.mem_cons.1 hx with e | e
    · rw [e]; exact hs
    · exact (connected_lt roomList s x e).1

/-- In a symmetric room list without self-connections, two rooms that each have at least
`MIN_CONN` distinct connected rooms can be reached from one another (in at most two moves):
among `NUM_ROOMS = 7` rooms their neighbourhoods of four rooms or more must meet. -/
theorem connects_of_min_degree (roomList : List Room)
    (hsym : ∀ a b, a < NUM_ROOMS → b < NUM_ROOMS →
      (connAt roomList a b = 1 ↔ connAt roomList b a = 1))
    (s e : Nat) (hs : s < NUM_ROOMS) (he : e < NUM_ROOMS)
    (hss : connAt roomList s s ≠ 1) (hee : connAt roomList e e ≠ 1)
    (hds : MIN_CONN ≤ degree roomList s) (hde : MIN_CONN ≤ degree roomList e) :
    Connects roomList s e := by
  obtain ⟨ha, hsa⟩ := closedNeighbours_card roomList s hs hss hds
  obtain ⟨hb, hsb⟩ := closedNeighbours_card roomList e he hee hde
  have hu : ((s :: connected roomList s).toFinset ∪ (e :: connected roomList e).toFinset).card
      ≤ NUM_ROOMS := by
    have := Finset.card_le_card (Finset.union_subset hsa hsb)
    simpa using this
  have hsum := Finset.card_union_add_card_inter (s :: connected roomList s).toFinset
    (e :: connected roomList e).toFinset
  have hpos : 0 < ((s :: connected roomList s).toFinset ∩
      (e :: connected roomList e).toFinset).card := by
    unfold MIN_CONN at ha hb
    unfold NUM_ROOMS at hu
    omega
  obtain ⟨x, hx⟩ := Finset.card_pos.1 hpos
  rw [Finset.mem_inter, List.mem_toFinset, List.mem_toFinset] at hx
  obtain ⟨hx1, hx2⟩ := hx
  rcases List.mem_cons.1 hx1 with e1 | e1
  · rcases List.mem_cons.1 hx2 with e2 | e2
    · rw [← e1, e2]
      exact Connects.refl e
    · have hc := (connected_lt roomList e x e2).2
      rw [e1] at hc
      exact Connects.step s s e (Connects.refl s) ((hsym e s he hs).1 hc)
  · have hc1 := connected_lt roomList s x e1
    rcases List.mem_cons.1 hx2 with e2 | e2
    · rw [e2] at hc1
      exact Connects.step s s e (Connects.refl s) hc1.2
    · have hc2 := (connected_lt roomList e x e2).2
      exact Connects.step s x e (Connects.step s s x (Connects.refl s) hc1.2)
        ((hsym e x he hc1.1).1 hc2)


end CAdventure
